import Mathlib

/-
Verification of the extraction pipelines of kosovatools/energy-data.

The repository has two Python scripts:
  * scripts/generate_me_accreditation.py        (accredited programmes, namespaced `Accred`)
  * scripts/generate_prishtina_building_permits.py (building permits, namespaced `Permits`)

This file gives a shallow embedding of the parsing layer of both scripts and
proves / refutes the frozen claims about them.

Modelling conventions:
  * Python strings are `List Char`.  The character-level Unicode operations
    (`str.lower`, NFKD decomposition, combining-mark classification) are
    modelled by finite tables covering ASCII plus the accented characters that
    occur in these Albanian-language spreadsheets; characters outside the
    table are fixed points, exactly as ASCII characters are in CPython.
  * Python floats are modelled as exact decimal numbers `PyDec` (mantissa and
    decimal exponent) together with an explicit negative-zero flag; the
    binary-representation artefacts of IEEE doubles are outside the model.
  * Each `re.sub` pass is modelled by a scanner that walks the string the way
    the regex engine does (leftmost match, resume after the replacement).
    Where a scanner is specialised to the whitespace shape guaranteed by the
    preceding passes, a comment records the invariant.
  * A Python function that can raise is modelled with `Except PyErr`; a
    `try/except` block is modelled by matching on the error and re-raising
    what the `except` clause does not catch.
-/

namespace EnergyData

/-- The Python exception types relevant to the coercers. -/
inductive PyErr where
  | typeError
  | valueError
  | overflowError
deriving DecidableEq, Repr

/-- Structural (fatal) parse errors of the two pipelines. -/
inductive PipeErr where
  | headerNotFound
  | institutionMissing
  | missingColumns
deriving DecidableEq, Repr

/-- ASCII whitespace, the fragment of Python's `\s` exercised by these files. -/
def isPySpace (c : Char) : Bool :=
  c = ' ' || c = '\t' || c = '\n' || c = '\r' || c = '\x0b' || c = '\x0c'

/-- Apostrophe, written via its code point. -/
def quoteS : Char := Char.ofNat 39

/-- Double quote, written via its code point. -/
def quoteD : Char := Char.ofNat 34

/-- Lowercase ASCII letter, digit, or space: the alphabet that survives
`normalize_header` in both scripts (`[^a-z0-9 ]+` is replaced by a space). -/
def isAz09Space (c : Char) : Bool :=
  ('a' ≤ c && c ≤ 'z') || ('0' ≤ c && c ≤ '9') || c = ' '

/-- First-match character translation with identity default. -/
def charMap : List (Char × Char) → Char → Char
  | [], c => c
  | p :: rest, c => if p.1 = c then p.2 else charMap rest c

/-- First-match character-to-string translation with singleton default. -/
def charMapL : List (Char × List Char) → Char → List Char
  | [], c => [c]
  | p :: rest, c => if p.1 = c then p.2 else charMapL rest c

/-- The lowercasing table: ASCII uppercase plus the accented capitals
appearing in these spreadsheets. -/
def lowerTable : List (Char × Char) :=
  [('A', 'a'), ('B', 'b'), ('C', 'c'), ('D', 'd'), ('E', 'e'), ('F', 'f'),
   ('G', 'g'), ('H', 'h'), ('I', 'i'), ('J', 'j'), ('K', 'k'), ('L', 'l'),
   ('M', 'm'), ('N', 'n'), ('O', 'o'), ('P', 'p'), ('Q', 'q'), ('R', 'r'),
   ('S', 's'), ('T', 't'), ('U', 'u'), ('V', 'v'), ('W', 'w'), ('X', 'x'),
   ('Y', 'y'), ('Z', 'z'),
   ('Ë', 'ë'), ('Ç', 'ç'), ('É', 'é'), ('Ü', 'ü'), ('Ä', 'ä'), ('Ö', 'ö')]

/-- `str.lower()` restricted to the characters of the modelled universe. -/
def pyLower (c : Char) : Char := charMap lowerTable c

/-- `str.upper()` on single characters, for the title-caser. -/
def pyUpper (c : Char) : Char :=
  charMap (lowerTable.map (fun p => (p.2, p.1))) c

/-- Combining marks produced by the NFKD table below. -/
def isCombining (c : Char) : Bool :=
  c = '̈' || c = '́' || c = '̧'

/-- `unicodedata.normalize("NFKD", ·)` on single characters, restricted to the
modelled universe (accented lowercase letters decompose into a base letter and
a combining mark; `º` has the compatibility decomposition `o`). -/
def nfkdChar (c : Char) : List Char :=
  charMapL
    [('ë', ['e', '̈']), ('ç', ['c', '̧']), ('é', ['e', '́']), ('ü', ['u', '̈']),
     ('ä', ['a', '̈']), ('ö', ['o', '̈']), ('º', ['o'])] c

/-- Removing the diacritic of a (pre-composed) accented character; identity on
everything else.  Two labels "differ only in diacritics" when they agree after
mapping this function. -/
def deAccentChar (c : Char) : Char :=
  charMap
    [('ë', 'e'), ('Ë', 'E'), ('ç', 'c'), ('Ç', 'C'), ('é', 'e'), ('É', 'E'),
     ('ü', 'u'), ('Ü', 'U'), ('ä', 'a'), ('Ä', 'A'), ('ö', 'o'), ('Ö', 'O')] c

/-- The case-and-diacritic skeleton of a character: lowercase, then strip the
accent.  Two header labels that differ only in letter case or in diacritics
have equal skeletons position by position. -/
def skelChar (c : Char) : Char := deAccentChar (pyLower c)

/-- Python's `str.strip()` from the left. -/
def stripLeft (p : Char → Bool) (l : List Char) : List Char := l.dropWhile p

/-- Strip characters satisfying `p` from both ends (`str.strip` / `str.strip(chars)`). -/
def stripBoth (p : Char → Bool) (l : List Char) : List Char :=
  (((l.dropWhile p).reverse).dropWhile p).reverse

/-- `str.strip()` (whitespace from both ends). -/
def pyStrip (l : List Char) : List Char := stripBoth isPySpace l

/-- `str.strip(chars)` for an explicit character set. -/
def stripSet (cs : List Char) (l : List Char) : List Char :=
  stripBoth (fun c => cs.contains c) l

/-- Scanner for `re.sub(p+ , sep)`: every maximal run of characters satisfying
`p` is replaced by `sep`.  The flag records whether the previous character
belonged to a run whose replacement has already been emitted. -/
def subRunsAux (p : Char → Bool) (sep : List Char) : Bool → List Char → List Char
  | _, [] => []
  | inRun, c :: cs =>
    if p c then
      if inRun then subRunsAux p sep true cs
      else sep ++ subRunsAux p sep true cs
    else c :: subRunsAux p sep false cs

/-- `re.sub` of maximal `p`-runs by `sep`. -/
def subRuns (p : Char → Bool) (sep : List Char) (l : List Char) : List Char :=
  subRunsAux p sep false l

/-- `re.sub(r"\s+", " ", ·)`. -/
def collapseWs (l : List Char) : List Char := subRuns isPySpace [' '] l

/-- `text.replace("\r\n", "\n").replace("\r", "\n")`. -/
def fixNewlines : List Char → List Char
  | '\r' :: '\n' :: rest => '\n' :: fixNewlines rest
  | '\r' :: rest => '\n' :: fixNewlines rest
  | c :: rest => c :: fixNewlines rest
  | [] => []

/-- `re.sub(r"[\n]+", ", ", ·)`. -/
def newlinesToComma (l : List Char) : List Char := subRuns (· = '\n') [',', ' '] l

/-- `re.sub(r",\s*,", ", ", ·)`.  This pass runs directly after the whitespace
collapse, so every whitespace run it can see is a single space; `\s*` therefore
matches zero or one `' '`. -/
def subCommaComma : List Char → List Char
  | ',' :: ',' :: rest => ',' :: ' ' :: subCommaComma rest
  | ',' :: ' ' :: ',' :: rest => ',' :: ' ' :: subCommaComma rest
  | c :: rest => c :: subCommaComma rest
  | [] => []

/-- `re.sub(r"\s+,", ",", ·)`.  After the previous pass whitespace runs have
length at most two (a collapsed single space possibly followed by the space of
an inserted `", "`), so the greedy `\s+` matches one or two spaces. -/
def subSpaceComma : List Char → List Char
  | ' ' :: ' ' :: ',' :: rest => ',' :: subSpaceComma rest
  | ' ' :: ',' :: rest => ',' :: subSpaceComma rest
  | c :: rest => c :: subSpaceComma rest
  | [] => []

/-- `re.sub(r",\s+", ", ", ·)`, under the same run-length-≤-2 invariant. -/
def subCommaSpace : List Char → List Char
  | ',' :: ' ' :: ' ' :: rest => ',' :: ' ' :: subCommaSpace rest
  | ',' :: ' ' :: rest => ',' :: ' ' :: subCommaSpace rest
  | c :: rest => c :: subCommaSpace rest
  | [] => []

/-- `re.sub(r"q(?=\s)", "", ·)`: delete a quote character whose lookahead is
whitespace; the whitespace itself is not consumed. -/
def dropQuoteBeforeWs (q : Char) : List Char → List Char
  | [] => []
  | c :: cs =>
    match cs with
    | [] => [c]
    | d :: _ =>
      if c = q && isPySpace d then dropQuoteBeforeWs q cs
      else c :: dropQuoteBeforeWs q cs

/-- An exact decimal number `man / 10 ^ exp`, the model of a Python float
arising from these spreadsheets. -/
structure PyDec where
  man : Int
  exp : Nat
deriving DecidableEq, Repr

/-- A calendar date (the payload of a `datetime` / pandas `Timestamp` cell). -/
structure PyDate where
  year : Nat
  month : Nat
  day : Nat
deriving DecidableEq, Repr

/-- An untyped spreadsheet cell value as the scripts receive it from pandas:
missing (`None`), `NaN`, an int, a float (with an explicit negative-zero
flag), a string, or a date. -/
inductive RawCell where
  | none
  | nan
  | int (n : Int)
  | float (val : PyDec) (negZero : Bool)
  | str (chars : List Char)
  | date (d : PyDate)
deriving DecidableEq, Repr

/-- Digit character of `n % 10` (matches `Nat.digitChar` on 0–9). -/
def digitCh (n : Nat) : Char := Nat.digitChar (n % 10)

/-- Two-digit zero-padded decimal, as `date.isoformat()` prints months/days. -/
def pad2 (n : Nat) : List Char := [digitCh (n / 10), digitCh n]

/-- `date.isoformat()`: `YYYY-MM-DD`.  Years reaching this function are pandas
`Timestamp` years (1677–2262), so the four-digit fixed-width rendering agrees
with Python's `%04d`. -/
def isoDate (d : PyDate) : List Char :=
  [digitCh (d.year / 1000), digitCh (d.year / 100), digitCh (d.year / 10), digitCh d.year] ++
    '-' :: pad2 d.month ++ '-' :: pad2 d.day

/-- Decimal digits of a natural number (via the standard library printer). -/
def natChars (n : Nat) : List Char := (Nat.toDigits 10 n)

/-- Decimal rendering of an integer. -/
def intChars (n : Int) : List Char :=
  if n < 0 then '-' :: natChars n.natAbs else natChars n.natAbs

/-- Rendering of a `PyDec` as Python's `str(float)` would (sign, integer part,
point, fractional digits).  Only a best-effort model: it is used for `str()`
of non-string cells inside `clean_text` and `parse_decimal`, none of which is
exercised by a claim on a float-valued cell. -/
def decChars (d : PyDec) (negZero : Bool) : List Char :=
  let digits := natChars d.man.natAbs
  let digits := List.replicate (d.exp + 1 - digits.length) '0' ++ digits
  let intPart := digits.take (digits.length - d.exp)
  let fracPart := digits.drop (digits.length - d.exp)
  let fracPart := if fracPart = [] then ['0'] else fracPart
  (if d.man < 0 || negZero then ['-'] else []) ++ intPart ++ '.' :: fracPart

/-- Python `str(value)` on the modelled cell universe. -/
def strOfRaw : RawCell → List Char
  | .none => "None".data
  | .nan => "nan".data
  | .int n => intChars n
  | .float d nz => decChars d nz
  | .str s => s
  | .date d => isoDate d ++ ' ' :: '0' :: '0' :: ':' :: '0' :: '0' :: ':' :: '0' :: '0' :: []

/-- `pd.isna` on scalars: `None` and `NaN` are missing, everything else is not. -/
def isnaCell : RawCell → Bool
  | .none => true
  | .nan => true
  | _ => false

/-- The string core of `clean_text` of generate_prishtina_building_permits.py
(lines 156–173): strip; newline unification; newline runs to `", "`;
whitespace collapse; comma respacing; quote collapsing; quotes hanging before
whitespace dropped; final strip of `" ,\"'"`. -/
def cleanChars (l : List Char) : Option (List Char) :=
  let t := pyStrip l
  if t = [] then Option.none
  else
    let t := fixNewlines t
    let t := newlinesToComma t
    let t := collapseWs t
    let t := subCommaComma t
    let t := subSpaceComma t
    let t := subCommaSpace t
    let t := subRuns (· = quoteS) [quoteS] t
    let t := subRuns (· = quoteD) [quoteD] t
    let t := dropQuoteBeforeWs quoteS t
    let t := dropQuoteBeforeWs quoteD t
    let t := stripSet [' ', ',', quoteD, quoteS] t
    if t = [] then Option.none else some t

/-- `clean_text` of the permits script: `None`/`NaN` guard, then the string
pipeline on `str(value)`. -/
def Permits.clean_text (v : RawCell) : Option (List Char) :=
  match v with
  | .none => Option.none
  | .nan => Option.none
  | v => cleanChars (strOfRaw v)

/-- `clean_text` of generate_me_accreditation.py (lines 72–78): `None`/`NaN`
guard, strip, empty check, whitespace collapse. -/
def Accred.clean_text (v : RawCell) : Option (List Char) :=
  match v with
  | .none => Option.none
  | .nan => Option.none
  | v =>
    let t := pyStrip (strOfRaw v)
    if t = [] then Option.none else some (collapseWs t)

/-- `normalize_header` of the accreditation script (lines 61–69) on a string
label: strip, lowercase, NFKD, drop combining marks, newlines to spaces,
non-`[a-z0-9 ]` runs to a space, whitespace collapse, strip. -/
def Accred.normalizeHeaderChars (l : List Char) : List Char :=
  let t := (pyStrip l).map pyLower
  let t := (t.flatMap nfkdChar).filter (fun c => !(isCombining c))
  let t := t.map (fun c => if c = '\n' then ' ' else c)
  let t := subRuns (fun c => !(isAz09Space c)) [' '] t
  let t := collapseWs t
  pyStrip t

/-- `normalize_header` of the accreditation script on a cell (`None` gives the
empty string; other values go through `str(value)`). -/
def Accred.normalize_header (v : RawCell) : List Char :=
  match v with
  | .none => []
  | v => Accred.normalizeHeaderChars (strOfRaw v)

/-- `normalize_header` of the permits script (lines 145–153): `clean_text`
first, then lowercase, NFKD, drop combining marks, drop `º`, non-`[a-z0-9 ]`
runs to a space, whitespace collapse, strip. -/
def Permits.normalize_header (v : RawCell) : List Char :=
  match Permits.clean_text v with
  | Option.none => []
  | some t =>
    let t := ((t.map pyLower).flatMap nfkdChar).filter (fun c => !(isCombining c))
    let t := t.filter (fun c => !(c = 'º'))
    let t := subRuns (fun c => !(isAz09Space c)) [' '] t
    let t := collapseWs t
    pyStrip t

/-- Python's `\w` for the text reaching `smart_title_case` (it is lowercased
first): ASCII alphanumerics, underscore, and the accented letters of the
modelled universe. -/
def isWordChar (c : Char) : Bool :=
  ('a' ≤ c && c ≤ 'z') || ('A' ≤ c && c ≤ 'Z') || ('0' ≤ c && c ≤ '9') || c = '_' ||
    c = 'ë' || c = 'ç' || c = 'é' || c = 'ü' || c = 'ä' || c = 'ö' ||
    c = 'Ë' || c = 'Ç' || c = 'É' || c = 'Ü' || c = 'Ä' || c = 'Ö'

/-- `SMALL_WORDS` of the permits script (lines 93–108). -/
def SMALL_WORDS : List (List Char) :=
  ["e".data, "dhe".data, "me".data, "nga".data, "ne".data, "në".data,
   "te".data, "të".data, "per".data, "për".data, "prej".data, "së".data,
   "se".data, "i".data]

/-- `word[:1].upper() + word[1:]`. -/
def capWord : List Char → List Char
  | [] => []
  | c :: cs => pyUpper c :: cs

/-- Word-by-word pass of `smart_title_case`: each maximal `\w+` run is
capitalised unless it is a small word.  Fuel-driven scan (fuel `≥ length`
suffices, and the caller passes `length + 1`). -/
def titleAux : Nat → List Char → List Char
  | _, [] => []
  | 0, l => l
  | fuel + 1, c :: cs =>
    if isWordChar c then
      let w := c :: cs.takeWhile isWordChar
      let rest := cs.dropWhile isWordChar
      (if SMALL_WORDS.contains w then w else capWord w) ++ titleAux fuel rest
    else c :: titleAux fuel cs

/-- `smart_title_case` of the permits script (lines 176–188): lowercase, then
capitalise each word except small words, then force the first character upper. -/
def smart_title_case (l : List Char) : List Char :=
  let lowered := l.map pyLower
  let titled := titleAux (lowered.length + 1) lowered
  match titled with
  | [] => []
  | c :: cs => pyUpper c :: cs

/-- A generic one-pattern `re.sub` engine: `m` tries to match at the current
position and returns the replacement plus the rest of the input after the
match.  The scan resumes after the replacement, as `re.sub` does; `fuel ≥
length` makes the fuel clause unreachable (callers pass `length + 1`, and
every successful match consumes at least one character). -/
def genSub (m : List Char → Option (List Char × List Char)) : Nat → List Char → List Char
  | _, [] => []
  | 0, l => l
  | fuel + 1, c :: cs =>
    match m (c :: cs) with
    | some (rep, rest) => rep ++ genSub m fuel rest
    | Option.none => c :: genSub m fuel cs

/-- Matcher of `re.sub(r"-\s*,", "-", ·)`. -/
def matchDashComma (l : List Char) : Option (List Char × List Char) :=
  match l with
  | '-' :: rest =>
    match rest.dropWhile isPySpace with
    | ',' :: tail => some (['-'], tail)
    | _ => Option.none
  | _ => Option.none

/-- Matcher of `re.sub(r",\s*-", "-", ·)`. -/
def matchCommaDash (l : List Char) : Option (List Char × List Char) :=
  match l with
  | ',' :: rest =>
    match rest.dropWhile isPySpace with
    | '-' :: tail => some (['-'], tail)
    | _ => Option.none
  | _ => Option.none

/-- Matcher of `re.sub(r"\s*-\s*", sep, ·)` (greedy whitespace on both sides of
a single dash). -/
def matchDashSep (sep : List Char) (l : List Char) : Option (List Char × List Char) :=
  match l.dropWhile isPySpace with
  | '-' :: tail => some (sep, tail.dropWhile isPySpace)
  | _ => Option.none

/-- Matcher of `re.sub(r"\s*/\s*", " / ", ·)`. -/
def matchSlashSep (l : List Char) : Option (List Char × List Char) :=
  match l.dropWhile isPySpace with
  | '/' :: tail => some ([' ', '/', ' '], tail.dropWhile isPySpace)
  | _ => Option.none

/-- `normalize_inline_separators` of the permits script (lines 191–211):
clean, unify en/em dashes, tighten dash/comma combinations, respace dashes (or
erase dash runs when `dashSep` is `none`), respace slashes, collapse
whitespace, strip space/comma/dash/slash from the ends, optionally title-case. -/
def normalize_inline_separators (v : RawCell) (dashSep : Option (List Char))
    (titleCase : Bool) : Option (List Char) :=
  match Permits.clean_text v with
  | Option.none => Option.none
  | some t0 =>
    let t := t0.map (fun c => if c = '–' || c = '—' then '-' else c)
    let t := genSub matchDashComma (t.length + 1) t
    let t := genSub matchCommaDash (t.length + 1) t
    let t := match dashSep with
      | Option.none => subRuns (· = '-') [' '] t
      | some sep => genSub (matchDashSep sep) (t.length + 1) t
    let t := genSub matchSlashSep (t.length + 1) t
    let t := collapseWs t
    let t := stripSet [' ', ',', '-', '/'] t
    if t = [] then Option.none
    else
      let t := if titleCase then smart_title_case t else t
      if t = [] then Option.none else some t

/-- `normalize_destination` (line 214). -/
def normalize_destination (v : RawCell) : Option (List Char) :=
  normalize_inline_separators v (some [' ', '-', ' ']) true

/-- `normalize_neighbourhood` (line 218). -/
def normalize_neighbourhood (v : RawCell) : Option (List Char) :=
  normalize_inline_separators v (some [' ', '-', ' ']) true

/-- Case-insensitive anchored literal: if the lowercased text starts with
`pat` (already lowercase), return the rest. -/
def stripCI (pat : List Char) (l : List Char) : Option (List Char) :=
  if (l.take pat.length).map pyLower = pat then some (l.drop pat.length) else Option.none

/-- Character class `[:\s-]` of the document-reference prefix regex. -/
def isColonWsDash (c : Char) : Bool := c = ':' || isPySpace c || c = '-'

/-- `re.sub(r"^leja dokumenti[:\s-]+", "", t, flags=IGNORECASE)`: anchored, so
at most one replacement at position 0. -/
def stripDocRefA (t : List Char) : List Char :=
  match stripCI "leja dokumenti".data t with
  | some r =>
    match r with
    | c :: _ => if isColonWsDash c then r.dropWhile isColonWsDash else t
    | [] => t
  | Option.none => t

/-- The shared tail of the `^(leja|leje)\s+(me\s+)?nr\.?\s*` patterns: after
the alternation has matched, require whitespace, the optional `me`, `nr`, an
optional dot, and trailing whitespace. -/
def stripLejaTail (withMe : Bool) (r : List Char) : Option (List Char) :=
  match r with
  | c :: _ =>
    if isPySpace c then
      let r1 := r.dropWhile isPySpace
      let r2 : Option (List Char) :=
        if withMe then
          match stripCI "me".data r1 with
          | some rr =>
            match rr with
            | d :: _ => if isPySpace d then some (rr.dropWhile isPySpace) else Option.none
            | [] => Option.none
          | Option.none => Option.none
        else some r1
      match r2 with
      | Option.none => Option.none
      | some r3 =>
        match stripCI "nr".data r3 with
        | Option.none => Option.none
        | some r4 =>
          let r5 := match r4 with
            | '.' :: tail => tail
            | _ => r4
          some (r5.dropWhile isPySpace)
    else Option.none
  | [] => Option.none

/-- One anchored `^(leja|leje)...` substitution (`withMe` selects the pattern
with the `me\s+` component). -/
def stripLejaNr (withMe : Bool) (t : List Char) : List Char :=
  let attempt := match stripCI "leja".data t with
    | some r => stripLejaTail withMe r
    | Option.none =>
      match stripCI "leje".data t with
      | some r => stripLejaTail withMe r
      | Option.none => Option.none
  match attempt with
  | some rest => rest
  | Option.none => t

/-- `normalize_document_reference` of the permits script (lines 222–230). -/
def normalize_document_reference (v : RawCell) : Option (List Char) :=
  match Permits.clean_text v with
  | Option.none => Option.none
  | some t =>
    let t := stripDocRefA t
    let t := stripLejaNr true t
    let t := stripLejaNr false t
    let t := t.dropWhile (fun c => c = ':' || c = '-' || c = ' ')
    if t = [] then Option.none else some t

/-- Round `n / den` (with `den > 0`) to the nearest integer, ties to even:
Python's `round`. -/
def rneInt (n : Int) (den : Int) : Int :=
  let q := Int.fdiv n den
  let r := n - q * den
  if 2 * r < den then q
  else if den < 2 * r then q + 1
  else if q % 2 = 0 then q else q + 1

/-- Python `round(x)` on a decimal: nearest integer, ties to even. -/
def PyDec.rnd (d : PyDec) : Int := rneInt d.man (10 ^ d.exp)

/-- Python `round(x, 2)` on a decimal, returned in cents (the result is always
an exact multiple of 0.01). -/
def PyDec.rnd2 (d : PyDec) : Int :=
  if d.exp ≤ 2 then d.man * (10 ^ (2 - d.exp))
  else rneInt d.man (10 ^ (d.exp - 2))

/-- A float that is an exact multiple of 0.01 — the result type of
`round(x, 2)`.  `cents` is the value scaled by 100; `negZero` records whether
the float is IEEE negative zero (only possible when `cents = 0`). -/
structure PyFloat where
  cents : Int
  negZero : Bool
deriving DecidableEq, Repr

/-- `round(x, 2)` including the sign of a zero result: rounding a negative
value (or negative zero) to zero yields negative zero, as IEEE rounding does. -/
def pyRound2 (d : PyDec) (nz : Bool) : PyFloat :=
  let c := d.rnd2
  ⟨c, c == 0 && (decide (d.man < 0) || nz)⟩

/-- Digits to a natural number. -/
def digitsToNat (l : List Char) : Nat :=
  l.foldl (fun a c => a * 10 + (c.toNat - 48)) 0

/-- An unsigned decimal literal: digits with an optional single point, at
least one digit overall. -/
def parseUnsignedDec (l : List Char) : Option PyDec :=
  let intDigs := l.takeWhile Char.isDigit
  let rest := l.dropWhile Char.isDigit
  match rest with
  | [] => if intDigs = [] then Option.none else some ⟨digitsToNat intDigs, 0⟩
  | '.' :: fracPart =>
    let fracDigs := fracPart.takeWhile Char.isDigit
    let rest2 := fracPart.dropWhile Char.isDigit
    if rest2 ≠ [] then Option.none
    else if intDigs = [] && fracDigs = [] then Option.none
    else some ⟨digitsToNat (intDigs ++ fracDigs), fracDigs.length⟩
  | _ => Option.none

/-- The `float(str)` builtin on the modelled universe: strip whitespace,
optional sign, decimal literal.  (Exponent notation, `inf`/`nan` literals and
underscore separators do not occur in these spreadsheets and are outside the
model.)  Malformed input raises `ValueError`.  The boolean is the sign flag,
used to recognise negative zero. -/
def pyFloatOfChars (l : List Char) : Except PyErr (PyDec × Bool) :=
  match pyStrip l with
  | '-' :: r =>
    match parseUnsignedDec r with
    | some d => .ok (⟨-d.man, d.exp⟩, true)
    | Option.none => .error .valueError
  | '+' :: r =>
    match parseUnsignedDec r with
    | some d => .ok (d, false)
    | Option.none => .error .valueError
  | r =>
    match parseUnsignedDec r with
    | some d => .ok (d, false)
    | Option.none => .error .valueError

/-- The `float(value)` builtin on a cell: `TypeError` for `None` and dates,
string parsing for strings, identity for numbers.  (`float(NaN)` is `NaN`,
which is unreachable here because every caller first filters `NaN` through
`pd.isna`; it is modelled as `ValueError`, the error the subsequent
`round` would raise.) -/
def pyFloatOfCell : RawCell → Except PyErr (PyDec × Bool)
  | .none => .error .typeError
  | .nan => .error .valueError
  | .int n => .ok (⟨n, 0⟩, false)
  | .float d nz => .ok (d, nz)
  | .str s => pyFloatOfChars s
  | .date _ => .error .typeError

/-- `to_int` of the accreditation script (lines 81–88):
`None`/`NaN` guard, then `int(round(float(value)))` with
`except (TypeError, ValueError, OverflowError): return None`.  The catch
covers every error the body can raise, which is why the function is total. -/
def to_int (v : RawCell) : Except PyErr (Option Int) :=
  match v with
  | .none => .ok Option.none
  | .nan => .ok Option.none
  | v =>
    match pyFloatOfCell v with
    | .ok (d, _) => .ok (some d.rnd)
    | .error .typeError => .ok Option.none
    | .error .valueError => .ok Option.none
    | .error .overflowError => .ok Option.none

/-- `to_float` of the accreditation script (lines 91–98): `None`/`NaN` guard,
`float(value)`, same catch, then `round(num, 2)`. -/
def to_float (v : RawCell) : Except PyErr (Option PyFloat) :=
  match v with
  | .none => .ok Option.none
  | .nan => .ok Option.none
  | v =>
    match pyFloatOfCell v with
    | .ok (d, nz) => .ok (some (pyRound2 d nz))
    | .error .typeError => .ok Option.none
    | .error .valueError => .ok Option.none
    | .error .overflowError => .ok Option.none

/-- `text.replace(pat, rep)` for a multi-character pattern (left-to-right,
non-overlapping).  Fuel-driven; callers pass `length + 1`. -/
def replaceSeq (pat rep : List Char) : Nat → List Char → List Char
  | _, [] => []
  | 0, l => l
  | fuel + 1, c :: cs =>
    if pat ≠ [] && pat.isPrefixOf (c :: cs) then
      rep ++ replaceSeq pat rep fuel ((c :: cs).drop pat.length)
    else c :: replaceSeq pat rep fuel cs

/-- `parse_decimal` of the permits script (lines 233–255).  `None`/`NaN`
guard; ints and floats are returned as `round(float(value), 2)` directly;
strings are stripped of currency marks and spaces, the comma decimal
separator becomes a dot, all dots but the last are treated as thousands
separators when more than one remains, and the result is parsed
(`except ValueError: return None` — only `ValueError` is caught, anything
else would propagate) and rounded, with a zero result forced to positive
zero. -/
def parse_decimal (v : RawCell) : Except PyErr (Option PyFloat) :=
  match v with
  | .none => .ok Option.none
  | .nan => .ok Option.none
  | .int n => .ok (some (pyRound2 ⟨n, 0⟩ false))
  | .float d nz => .ok (some (pyRound2 d nz))
  | v =>
    let text := strOfRaw v
    if text = [] then .ok Option.none
    else
      let text := text.filter (fun c => !(c = '€'))
      let text := replaceSeq "EUR".data [] (text.length + 1) text
      let text := text.filter (fun c => !(c = ' '))
      let text := text.map (fun c => if c = ',' then '.' else c)
      let text :=
        if 1 < text.count '.' then
          let revT := text.reverse
          let tail := (revT.takeWhile (fun c => !(c = '.'))).reverse
          let headPart := (((revT.dropWhile (fun c => !(c = '.'))).drop 1).reverse).filter
            (fun c => !(c = '.'))
          headPart ++ '.' :: tail
        else text
      match pyFloatOfChars text with
      | .error .valueError => .ok Option.none
      | .error e => .error e
      | .ok (d, neg) =>
        let r := pyRound2 d neg
        .ok (some (if r.cents = 0 then ⟨0, false⟩ else r))

/-- Gregorian leap year. -/
def isLeap (y : Nat) : Bool := (y % 4 = 0 && !(y % 100 = 0)) || y % 400 = 0

/-- Days in a month. -/
def daysInMonth (y m : Nat) : Nat :=
  if m = 2 then (if isLeap y then 29 else 28)
  else if m = 4 || m = 6 || m = 9 || m = 11 then 30 else 31

/-- Lexicographic order on dates. -/
def dateLE (a b : PyDate) : Bool :=
  a.year < b.year || (a.year = b.year &&
    (a.month < b.month || (a.month = b.month && a.day ≤ b.day)))

/-- A date representable as a pandas `Timestamp` at day resolution
(1677-09-22 … 2262-04-11); outside this window `pd.to_datetime(...,
errors="coerce")` yields `NaT`. -/
def tsInBounds (d : PyDate) : Bool :=
  dateLE ⟨1677, 9, 22⟩ d && dateLE d ⟨2262, 4, 11⟩

/-- `1 ≤ m ≤ 12` and `1 ≤ day ≤ daysInMonth`. -/
def validDate (y m dd : Nat) : Bool :=
  1 ≤ m && m ≤ 12 && 1 ≤ dd && dd ≤ daysInMonth y m

/-- The slash-separated date grammar `a/b/yyyy` as pandas parses it: with
`dayfirst` the pair is tried day-month first, otherwise month-day first, and
the other order is used as a fallback when the preferred one is invalid. -/
def parseSlashDate (dayfirst : Bool) (l : List Char) : Option PyDate :=
  let t := pyStrip l
  let a := t.takeWhile Char.isDigit
  let r1 := t.dropWhile Char.isDigit
  match r1 with
  | '/' :: r2 =>
    let b := r2.takeWhile Char.isDigit
    let r3 := r2.dropWhile Char.isDigit
    match r3 with
    | '/' :: r4 =>
      let ys := r4.takeWhile Char.isDigit
      let r5 := r4.dropWhile Char.isDigit
      if r5 = [] && !(a = []) && a.length ≤ 2 && !(b = []) && b.length ≤ 2 &&
          ys.length = 4 then
        let av := digitsToNat a
        let bv := digitsToNat b
        let yv := digitsToNat ys
        let preferred : Nat × Nat := if dayfirst then (bv, av) else (av, bv)
        let fallback : Nat × Nat := if dayfirst then (av, bv) else (bv, av)
        if validDate yv preferred.1 preferred.2 then some ⟨yv, preferred.1, preferred.2⟩
        else if validDate yv fallback.1 fallback.2 then some ⟨yv, fallback.1, fallback.2⟩
        else Option.none
      else Option.none
    | _ => Option.none
  | _ => Option.none

/-- Civil date from days since the Unix epoch (standard era-based algorithm);
used for the numeric branch of `pd.to_datetime`, which interprets numbers as
nanoseconds since 1970-01-01. -/
def civilFromDays (z0 : Int) : PyDate :=
  let z := z0 + 719468
  let era := Int.fdiv z 146097
  let doe := z - era * 146097
  let yoe := (doe - doe / 1460 + doe / 36524 - doe / 146096) / 1461
  let y := yoe + era * 400
  let doy := doe - (365 * yoe + yoe / 4 - yoe / 100)
  let mp := (5 * doy + 2) / 153
  let dd := doy - (153 * mp + 2) / 5 + 1
  let m := mp + (if mp < 10 then (3 : Int) else -9)
  let yy := y + (if m ≤ 2 then 1 else 0)
  ⟨yy.toNat, m.toNat, dd.toNat⟩

/-- `pd.to_datetime(value, errors="coerce", dayfirst=?)` at day resolution:
`None`/`NaN` give `NaT`; dates pass through (subject to `Timestamp` bounds);
strings are parsed by the slash grammar; numbers are nanoseconds since the
epoch. -/
def pd_to_datetime (dayfirst : Bool) : RawCell → Option PyDate
  | .none => Option.none
  | .nan => Option.none
  | .date d => if tsInBounds d then some d else Option.none
  | .str s =>
    match parseSlashDate dayfirst s with
    | some d => if tsInBounds d then some d else Option.none
    | Option.none => Option.none
  | .int n =>
    let d := civilFromDays (Int.fdiv n 86400000000000)
    if tsInBounds d then some d else Option.none
  | .float dec _ =>
    let ns := Int.fdiv dec.man (10 ^ dec.exp)
    let d := civilFromDays (Int.fdiv ns 86400000000000)
    if tsInBounds d then some d else Option.none

/-- `parse_date` of the permits script (lines 258–264): `None`/`NaN` guard,
`pd.to_datetime(value, errors="coerce", dayfirst=True)`, `isoformat`. -/
def Permits.parse_date (v : RawCell) : Option (List Char) :=
  match v with
  | .none => Option.none
  | .nan => Option.none
  | v => (pd_to_datetime true v).map isoDate

/-- `format_date` of the accreditation script (lines 101–107): `None`/`NaN`
guard, `pd.to_datetime(value, errors="coerce")` — note: pandas' default
`dayfirst=False` — then `isoformat`. -/
def Accred.format_date (v : RawCell) : Option (List Char) :=
  match v with
  | .none => Option.none
  | .nan => Option.none
  | v => (pd_to_datetime false v).map isoDate

/-- An openpyxl worksheet cell: its computed value plus the embedded
hyperlink target, if any (an absent or empty target models both
`hyperlink is None` and a falsy `hyperlink.target`). -/
structure SheetCell where
  value : RawCell
  hyperlink : Option (List Char)

/-- The fallback branch of `extract_hyperlink`: use the cell text itself when
it looks like an absolute URL (case-insensitive `http` test on the stripped
value). -/
def hyperlinkFromValue (cell : SheetCell) : Option (List Char) :=
  match cell.value with
  | .str s =>
    let st := pyStrip s
    if "http".data.isPrefixOf (st.map pyLower) then some st else Option.none
  | _ => Option.none

/-- `extract_hyperlink` of the permits script (lines 339–349).  The sheet is
abstracted as a total function from (0-based column, 1-based Excel row) to a
cell, absorbing `excel_column_letter`, which cannot raise because column
indices come from `enumerate` and are non-negative. -/
def extract_hyperlink (sheet : Nat → Nat → SheetCell) (columnIndex : Option Nat)
    (excelRow : Nat) : Option (List Char) :=
  match columnIndex with
  | Option.none => Option.none
  | some ci =>
    let cell := sheet ci excelRow
    match cell.hyperlink with
    | some target =>
      if !(target = []) then some (pyStrip target) else hyperlinkFromValue cell
    | Option.none => hyperlinkFromValue cell

/-- A JSON-able record value: null, text, rounded float, or int. -/
inductive JVal where
  | null
  | s (t : List Char)
  | f (x : PyFloat)
  | i (n : Int)
deriving DecidableEq, Repr

/-- Lift an optional string into a record value. -/
def optS : Option (List Char) → JVal
  | Option.none => .null
  | some t => .s t

/-- Lift an optional rounded float into a record value. -/
def optF : Option PyFloat → JVal
  | Option.none => .null
  | some x => .f x

/-- Lift an optional int into a record value. -/
def optI : Option Int → JVal
  | Option.none => .null
  | some n => .i n

/-- A record: an insertion-ordered dict from canonical field names to values. -/
abbrev Record := List (String × JVal)

/-- Extract the payload of an `Except` known (by the totality results below)
never to be an error; Python would propagate the exception otherwise. -/
def okOr (x : Except PyErr (Option α)) : Option α :=
  match x with
  | .ok a => a
  | .error _ => Option.none

/-- First-match lookup in an association list (dict access). -/
def lookupAL : List (String × String) → String → Option String
  | [], _ => Option.none
  | p :: rest, k => if p.1 = k then some p.2 else lookupAL rest k

/-- Value of a field in a labelled row (`row.get(field)`: missing gives
`None`). -/
def rowGet : List (String × RawCell) → String → RawCell
  | [], _ => RawCell.none
  | p :: rest, f => if p.1 = f then p.2 else rowGet rest f

/-- Value of a key in a record (`record.get(k)`). -/
def recordGet : Record → String → JVal
  | [], _ => JVal.null
  | p :: rest, k => if p.1 = k then p.2 else recordGet rest k

/-- In-place update of an existing key (dict assignment preserves insertion
order for keys that are already present). -/
def setKey (r : Record) (k : String) (v : JVal) : Record :=
  r.map (fun p => if p.1 = k then (k, v) else p)

/-- `HEADER_ALIASES` of the permits script (lines 33–52). -/
def HEADER_ALIASES : List (String × String) :=
  [("#", "permit_number"),
   ("data e aplikimit te lejes", "application_date"),
   ("data e leshimit te lejes", "issuance_date"),
   ("pronari pronaret perfaqesuesi", "owner"),
   ("kompania investitori", "investor"),
   ("projektuesi", "designer"),
   ("lagja", "neighbourhood"),
   ("lagjia", "neighbourhood"),
   ("lagjia e", "neighbourhood"),
   ("siperfaqja totale ndertimore", "total_floor_area_m2"),
   ("pagesa totale e lejes se leshuar", "total_fee_eur"),
   ("etazhiteti", "storeys"),
   ("etazhiteti i objektit", "storeys"),
   ("destinimi i objektit", "destination"),
   ("koment", "comment"),
   ("dokumenti ne pdf i lejes se leshuar", "document_reference"),
   ("situacioni i ndertimit", "situation_reference"),
   ("situacioni", "situation_reference")]

/-- `TEXT_FIELDS` (lines 54–63). -/
def TEXT_FIELDS : List String :=
  ["permit_number", "owner", "investor", "designer", "neighbourhood",
   "storeys", "destination", "document_reference"]

/-- `NUMERIC_FIELDS` (lines 65–70). -/
def NUMERIC_FIELDS : List String :=
  ["total_floor_area_m2", "density_fee_eur", "administrative_fee_eur", "total_fee_eur"]

/-- `DATE_FIELDS` (line 72). -/
def DATE_FIELDS : List String := ["application_date", "issuance_date"]

/-- `FIELD_ORDER` of the permits script (lines 74–91): 16 canonical fields. -/
def FIELD_ORDER : List String :=
  ["permit_number", "application_date", "issuance_date", "owner", "investor",
   "designer", "neighbourhood", "total_floor_area_m2", "density_fee_eur",
   "administrative_fee_eur", "total_fee_eur", "storeys", "destination",
   "document_reference", "document_url", "situation_url"]

/-- Does `pat` occur as a contiguous subsequence (`in` on Python strings)? -/
def containsSeq (pat : List Char) : List Char → Bool
  | [] => pat.isPrefixOf []
  | c :: rest => pat.isPrefixOf (c :: rest) || containsSeq pat rest

/-- `header_to_field` of the permits script (lines 302–312): normalize, fee /
area prefix rules first, then the alias table. -/
def header_to_field (header : String) : Option String :=
  let normalized := Permits.normalize_header (.str header.data)
  if normalized = [] then Option.none
  else if "pagesa e tarifes per rritjen e densitetit".data.isPrefixOf normalized then
    some "density_fee_eur"
  else if "pagesa e takses administrative".data.isPrefixOf normalized then
    some "administrative_fee_eur"
  else if "siperfaqja totale ndertimore".data.isPrefixOf normalized then
    some "total_floor_area_m2"
  else lookupAL HEADER_ALIASES (String.mk normalized)

/-- The scan of `find_header_row` (lines 281–287) from row `i` on. -/
def findHeaderRowAux : Nat → List (List RawCell) → Except PipeErr Nat
  | _, [] => .error .headerNotFound
  | i, row :: rest =>
    if row.any (fun cell => "data e leshimit".data.isPrefixOf (Permits.normalize_header cell)) then
      .ok i
    else findHeaderRowAux (i + 1) rest

/-- `find_header_row` of the permits script: the first row one of whose cells
normalizes to something starting with "data e leshimit"; raises when none
does. -/
def find_header_row (frame : List (List RawCell)) : Except PipeErr Nat :=
  findHeaderRowAux 0 frame

/-- The column loop of `load_dataframe` (lines 320–331): index 0 always
becomes the label `"#"`; other columns keep their cleaned string label or are
skipped entirely when the cell is not a string or cleans to nothing.  Returns
(label, position) pairs. -/
def loadColumns : Nat → List RawCell → List (String × Nat)
  | _, [] => []
  | i, cell :: rest =>
    let tail := loadColumns (i + 1) rest
    if i = 0 then ("#", i) :: tail
    else
      match cell with
      | .str s =>
        match cleanChars s with
        | some label => (String.mk label, i) :: tail
        | Option.none => tail
      | _ => tail

/-- Select the cells of a row at the retained positions (`.iloc[:, positions]`;
a missing cell is `NaN`). -/
def selectPositions (positions : List Nat) (row : List RawCell) : List RawCell :=
  positions.map (fun p => row.getD p RawCell.nan)

/-- Is every (selected) cell of the row missing? (`row.isna().all()`). -/
def allNa (row : List RawCell) : Bool := row.all isnaCell

/-- The data block of `load_dataframe`: rows strictly after the header row,
restricted to the retained positions, each keeping its original (0-based)
sheet row index, with fully-missing rows dropped (`dropna(how="all")`). -/
def dataRows (preview : List (List RawCell)) (headerIdx : Nat)
    (positions : List Nat) : List (Nat × List RawCell) :=
  (((preview.enum).drop (headerIdx + 1)).map
      (fun pr => (pr.1, selectPositions positions pr.2))).filter
    (fun pr => !(allNa pr.2))

/-- Dict assignment: overwrite the value when the key exists, else append. -/
def upsert (m : List (String × String)) (k v : String) : List (String × String) :=
  if m.any (fun p => p.1 = k) then m.map (fun p => if p.1 = k then (k, v) else p)
  else m ++ [(k, v)]

/-- One iteration of the `column_map` loop of `parse_workbook` (lines
388–394): `"#"` maps to `permit_number`, every other label through
`header_to_field`; falsy results are not inserted. -/
def cmStep (m : List (String × String)) (column : String) : List (String × String) :=
  match (if column = "#" then some "permit_number" else header_to_field column) with
  | some f => upsert m column f
  | Option.none => m

/-- The `column_map` of `parse_workbook`. -/
def buildColumnMap (columns : List String) : List (String × String) :=
  columns.foldl cmStep []

/-- First retained column whose label satisfies `p`, as an Excel position
(the `pdf_col_excel` / `situation_col_excel` scans, lines 395–399). -/
def firstMatchPos (colPairs : List (String × Nat)) (p : String → Bool) : Option Nat :=
  ((colPairs.find? (fun q => p q.1)).map (·.2))

/-- The per-field coercion dispatch of `build_record` (lines 359–374): text
fields through their specific normalizers, numeric fields through
`parse_decimal`, date fields through `parse_date`, everything else through
`clean_text`. -/
def buildFieldValue (row : List (String × RawCell)) (field : String) : JVal :=
  let value := rowGet row field
  if TEXT_FIELDS.contains field then
    if field = "destination" then optS (normalize_destination value)
    else if field = "neighbourhood" then optS (normalize_neighbourhood value)
    else if field = "document_reference" then optS (normalize_document_reference value)
    else optS (Permits.clean_text value)
  else if NUMERIC_FIELDS.contains field then optF (okOr (parse_decimal value))
  else if DATE_FIELDS.contains field then optS (Permits.parse_date value)
  else optS (Permits.clean_text value)

/-- The loop of `build_record` over `FIELD_ORDER`, skipping the URL fields. -/
def buildRecordBase (row : List (String × RawCell)) : Record :=
  FIELD_ORDER.foldl
    (fun acc field =>
      if field = "document_url" || field = "situation_url" then acc
      else acc ++ [(field, buildFieldValue row field)])
    []

/-- `build_record` of the permits script (lines 352–379): one value per
`FIELD_ORDER` entry except the two URL fields (filled later by the caller);
afterwards the comment fallback may overwrite a blank destination. -/
def build_record (row : List (String × RawCell)) (commentAsDestination : Bool) : Record :=
  let commentValue := Permits.clean_text (rowGet row "comment")
  let record := buildRecordBase row
  if commentAsDestination && recordGet record "destination" == JVal.null then
    match commentValue with
    | some cv =>
      match normalize_destination (.str cv) with
      | some destination => setKey record "destination" (JVal.s destination)
      | Option.none => record
    | Option.none => record
  else record

/-- `parse_workbook` of the permits script (lines 382–431), up to the record
list (year extraction and sheet metadata are I/O concerns outside the model).
The sheet argument is the openpyxl view used for hyperlink extraction. -/
def parse_workbook (preview : List (List RawCell)) (sheet : Nat → Nat → SheetCell) :
    Except PipeErr (List Record) :=
  match find_header_row preview with
  | .error e => .error e
  | .ok headerIdx =>
    let headerRow := preview.getD headerIdx []
    let colPairs := loadColumns 0 headerRow
    let columns := colPairs.map (·.1)
    let cm := buildColumnMap columns
    let pdfCol := firstMatchPos colPairs
      (fun label => containsSeq "pdf".data (Permits.normalize_header (.str label.data)))
    let situationCol := firstMatchPos colPairs
      (fun label => "situacioni".data.isPrefixOf (Permits.normalize_header (.str label.data)))
    let destinationPresent := cm.any (fun p => p.2 = "destination")
    let rows := dataRows preview headerIdx (colPairs.map (·.2))
    let recs := rows.filterMap (fun pr =>
      if allNa pr.2 then Option.none
      else
        let row := List.zip (columns.map (fun c => (lookupAL cm c).getD c)) pr.2
        match Permits.clean_text (rowGet row "permit_number") with
        | Option.none => Option.none
        | some _ =>
          let record := build_record row (!destinationPresent)
          let excelRow := pr.1 + 1
          some (record ++
            [("document_url", optS (extract_hyperlink sheet pdfCol excelRow)),
             ("situation_url", optS (extract_hyperlink sheet situationCol excelRow))]))
    .ok recs

/-- `ACCREDITED_HEADER_MAP` of the accreditation script (lines 30–44). -/
def ACCREDITED_HEADER_MAP : List (String × String) :=
  [("institucioni i arsimit te larte", "institution"),
   ("institucioni i arsimit te larte higher education institution", "institution"),
   ("nr", "program_number"),
   ("programi i studimit", "programme_sq"),
   ("progarmi i studimit", "programme_sq"),
   ("programet e studimit", "programme_sq"),
   ("study program", "programme_en"),
   ("kampusi", "campus"),
   ("niveli", "level"),
   ("ects", "ects"),
   ("kuota", "quota"),
   ("i akredituar deri me", "accredited_until"),
   ("i akredituar deri më", "accredited_until")]

/-- `ACCREDITED_FIELD_ORDER` (lines 46–56): 9 canonical fields. -/
def ACCREDITED_FIELD_ORDER : List String :=
  ["institution", "program_number", "programme_sq", "programme_en", "campus",
   "level", "ects", "quota", "accredited_until"]

/-- The scan of `load_accredited_dataframe` (lines 129–139) from row `i`: the
header row is the first whose first cell cleans to text containing
"institucioni" (case-insensitively). -/
def findHeaderRowAccAux : Nat → List (List RawCell) → Except PipeErr Nat
  | _, [] => .error .headerNotFound
  | i, row :: rest =>
    match Accred.clean_text (row.getD 0 RawCell.nan) with
    | some firstCell =>
      if containsSeq "institucioni".data (firstCell.map pyLower) then .ok i
      else findHeaderRowAccAux (i + 1) rest
    | Option.none => findHeaderRowAccAux (i + 1) rest

/-- Header location of the accreditation script; `ValueError` when no row
qualifies. -/
def load_accredited_header (preview : List (List RawCell)) : Except PipeErr Nat :=
  findHeaderRowAccAux 0 preview

/-- The rename targets of the header labels: each column label normalized and
looked up in `ACCREDITED_HEADER_MAP` (the loop of lines 144–149). -/
def accRenameTargets (labels : List RawCell) : List (Option String) :=
  labels.map (fun col => lookupAL ACCREDITED_HEADER_MAP (String.mk (Accred.normalize_header col)))

/-- The column names after `df.rename`: the mapped target, or the original
label (stringified) when unmapped. -/
def accColumns (labels : List RawCell) : List String :=
  labels.map (fun col =>
    (lookupAL ACCREDITED_HEADER_MAP (String.mk (Accred.normalize_header col))).getD
      (String.mk (strOfRaw col)))

/-- `df[ACCREDITED_FIELD_ORDER]`: the row's cells re-ordered to the canonical
field order (first matching column per field). -/
def accSelect (cols : List String) (row : List RawCell) : List RawCell :=
  ACCREDITED_FIELD_ORDER.map (fun f =>
    match cols.findIdx? (fun c => c = f) with
    | some i => row.getD i RawCell.nan
    | Option.none => RawCell.nan)

/-- `df["institution"] = df["institution"].ffill()` on the selected rows
(institution is column 0 after selection): missing cells take the last
non-missing value above; leading missing cells stay missing. -/
def accFfill : RawCell → List (List RawCell) → List (List RawCell)
  | _, [] => []
  | carry, row :: rest =>
    let cur := row.getD 0 RawCell.nan
    if isnaCell cur then row.set 0 carry :: accFfill carry rest
    else row :: accFfill cur rest

/-- The record literal of the loop of `parse_accredited_programmes`
(lines 164–179), with the `continue` on rows whose cleaned programme names
are both falsy. -/
def accBuildRecord (r : List RawCell) : Option Record :=
  let g := fun i => r.getD i RawCell.nan
  let psq := Accred.clean_text (g 2)
  let pen := Accred.clean_text (g 3)
  if psq = Option.none && pen = Option.none then Option.none
  else some
    [("institution", optS (Accred.clean_text (g 0))),
     ("program_number", optI (okOr (to_int (g 1)))),
     ("programme_sq", optS psq),
     ("programme_en", optS pen),
     ("campus", optS (Accred.clean_text (g 4))),
     ("level", optS (Accred.clean_text (g 5))),
     ("ects", optI (okOr (to_int (g 6)))),
     ("quota", optI (okOr (to_int (g 7)))),
     ("accredited_until", optS (Accred.format_date (g 8)))]

/-- The two `dropna` filters of lines 161–162 on a selected-and-filled row:
keep rows where at least one programme name is present, then rows whose
institution is present. -/
def accKept (rows : List (List RawCell)) : List (List RawCell) :=
  (rows.filter (fun r =>
      !(isnaCell (r.getD 2 RawCell.nan) && isnaCell (r.getD 3 RawCell.nan)))).filter
    (fun r => !(isnaCell (r.getD 0 RawCell.nan)))

/-- `parse_accredited_programmes` of the accreditation script (lines 142–181):
locate the header, resolve columns, fail when no column maps to
`institution` or a canonical column is missing, select the canonical columns,
forward-fill institution, drop rows (programme pair missing, institution
missing), and build the records. -/
def parse_accredited_programmes (preview : List (List RawCell)) :
    Except PipeErr (List Record) :=
  match load_accredited_header preview with
  | .error e => .error e
  | .ok headerIdx =>
    let labels := preview.getD headerIdx []
    let bodyRows := preview.drop (headerIdx + 1)
    if !((accRenameTargets labels).any (fun t => t = some "institution")) then
      .error .institutionMissing
    else
      let cols := accColumns labels
      if !((ACCREDITED_FIELD_ORDER.filter (fun f => !(cols.contains f))) = []) then
        .error .missingColumns
      else
        let sel := bodyRows.map (accSelect cols)
        let filled := accFfill RawCell.nan sel
        .ok ((accKept filled).filterMap accBuildRecord)

deriving instance DecidableEq for Except

/-- The shape `DDDD-DD-DD` of an ISO `YYYY-MM-DD` string. -/
def isIsoShape (l : List Char) : Bool :=
  match l with
  | [y1, y2, y3, y4, s1, m1, m2, s2, d1, d2] =>
    y1.isDigit && y2.isDigit && y3.isDigit && y4.isDigit && s1 = '-' &&
      m1.isDigit && m2.isDigit && s2 = '-' && d1.isDigit && d2.isDigit
  | _ => false

/-- A worksheet with neither values nor hyperlinks, for concrete runs. -/
def sheetW : Nat → Nat → SheetCell := fun _ _ => ⟨RawCell.none, Option.none⟩

/-- A minimal permits workbook: a header row and one data row whose only
content is the permit number. -/
def wbW : List (List RawCell) :=
  [[.str "Nr.".data, .str "Data e lëshimit të lejes".data],
   [.str "12".data, .nan]]

/-- The single record `parse_workbook` extracts from `wbW`. -/
def wbWRecord : Record :=
  [("permit_number", .s ['1', '2']), ("application_date", .null),
   ("issuance_date", .null), ("owner", .null), ("investor", .null),
   ("designer", .null), ("neighbourhood", .null), ("total_floor_area_m2", .null),
   ("density_fee_eur", .null), ("administrative_fee_eur", .null),
   ("total_fee_eur", .null), ("storeys", .null), ("destination", .null),
   ("document_reference", .null), ("document_url", .null), ("situation_url", .null)]

/-- The canonical accreditation header row used by the concrete runs. -/
def accHeaderW : List RawCell :=
  [.str "Institucioni i Arsimit të Lartë".data, .str "Nr.".data,
   .str "Programi i studimit".data, .str "Study Program".data,
   .str "Kampusi".data, .str "Niveli".data, .str "ECTS".data,
   .str "Kuota".data, .str "I akredituar deri më".data]

/-- A minimal accreditation sheet: the header row and one programme row. -/
def accW : List (List RawCell) :=
  [accHeaderW,
   [.str "UP".data, .nan, .str "F".data, .nan, .nan, .nan, .nan, .nan, .nan]]

/-- The single record `parse_accredited_programmes` extracts from `accW`. -/
def accWRecord : Record :=
  [("institution", .s ['U', 'P']), ("program_number", .null),
   ("programme_sq", .s ['F']), ("programme_en", .null), ("campus", .null),
   ("level", .null), ("ects", .null), ("quota", .null), ("accredited_until", .null)]

/-- An accreditation sheet whose first data row has a programme name but no
institution above it to forward-fill from: that row is dropped. -/
def accW2 : List (List RawCell) :=
  [accHeaderW,
   [.nan, .nan, .str "X".data, .nan, .nan, .nan, .nan, .nan, .nan],
   [.str "UP".data, .nan, .str "F".data, .nan, .nan, .nan, .nan, .nan, .nan]]

/-- A sheet in which no row passes either header-marker test. -/
def noHeaderW : List (List RawCell) := [[.str "x".data], [.nan]]

/-- A sheet whose header row is found (the first cell contains
"institucioni") but none of whose labels resolves to the institution field. -/
def accNoInstW : List (List RawCell) := [[.str "institucioni x".data, .str "Nr.".data]]

/-
Character classes and canonical-form predicates for the `normalize_header`
development.
-/

/-- The characters `pyLower` moves. -/
def lowerSupp : List Char :=
  ['A', 'B', 'C', 'D', 'E', 'F', 'G', 'H', 'I', 'J', 'K', 'L', 'M', 'N', 'O',
   'P', 'Q', 'R', 'S', 'T', 'U', 'V', 'W', 'X', 'Y', 'Z', 'Ë', 'Ç', 'É', 'Ü', 'Ä', 'Ö']

/-- The characters `deAccentChar` moves. -/
def deAccSupp : List Char :=
  ['ë', 'Ë', 'ç', 'Ç', 'é', 'É', 'ü', 'Ü', 'ä', 'Ä', 'ö', 'Ö']

/-- The characters `nfkdChar` decomposes. -/
def nfkdSupp : List Char := ['ë', 'ç', 'é', 'ü', 'ä', 'ö', 'º']

/-- The characters `skelChar` can move. -/
def skelSupp : List Char := lowerSupp ++ deAccSupp

/-- Adjacent characters are not both whitespace: the shape `re.sub(r"\s+", " ")`
leaves behind. -/
def noWW (a b : Char) : Prop := isPySpace a = false ∨ isPySpace b = false

/-- The canonical form of a normalized header label: only lowercase ASCII
letters, digits and spaces; no two adjacent whitespace characters; no leading
or trailing whitespace.  Both `normalize_header` functions produce such
strings, and both are the identity on them. -/
def canonHeader (l : List Char) : Prop :=
  (∀ c ∈ l, isAz09Space c = true) ∧ List.Chain' noWW l ∧
    (∀ d, l.head? = some d → isPySpace d = false) ∧
    (∀ d, l.reverse.head? = some d → isPySpace d = false)

/-- The scanner chain of `cleanChars` after the initial strip: the pipeline
applied between the two emptiness tests. -/
def cleanTail (s : List Char) : List Char :=
  stripSet [' ', ',', quoteD, quoteS]
    (dropQuoteBeforeWs quoteD (dropQuoteBeforeWs quoteS
      (subRuns (fun c => c = quoteD) [quoteD] (subRuns (fun c => c = quoteS) [quoteS]
        (subCommaSpace (subSpaceComma (subCommaComma
          (collapseWs (newlinesToComma (fixNewlines s))))))))))

/-
Theorems.
-/

set_option maxRecDepth 8000

/-- `float(str)` can only raise `ValueError`: every error branch of the
string parser is a `ValueError`. -/
theorem pyFloatOfChars_error_eq (l : List Char) (e : PyErr)
    (h : pyFloatOfChars l = .error e) : e = PyErr.valueError := by
  unfold pyFloatOfChars at h
  split at h <;> split at h <;> simp_all

set_option maxHeartbeats 1000000 in
/-- C1: every Value Coercer — `to_int`, `to_float`, `format_date` in the
accreditation pipeline and `parse_decimal`, `parse_date`, `extract_hyperlink`
in the permits pipeline — returns a coerced value or null for every input
(including `None`, `NaN`, empty or non-numeric strings, and wrongly-typed
values) and never raises to its caller: the `Except`-typed coercers always
return `.ok`, and the `Option`-typed ones return `none` or `some`. -/
theorem C1_coercers_total (v : RawCell) (sheet : Nat → Nat → SheetCell)
    (ci : Option Nat) (row : Nat) :
    (∃ r, to_int v = .ok r) ∧ (∃ r, to_float v = .ok r) ∧
    (∃ r, parse_decimal v = .ok r) ∧
    (Accred.format_date v = Option.none ∨ ∃ s, Accred.format_date v = some s) ∧
    (Permits.parse_date v = Option.none ∨ ∃ s, Permits.parse_date v = some s) ∧
    (extract_hyperlink sheet ci row = Option.none ∨
      ∃ s, extract_hyperlink sheet ci row = some s) := by
  refine ⟨?_, ?_, ?_, Option.eq_none_or_eq_some _, Option.eq_none_or_eq_some _,
    Option.eq_none_or_eq_some _⟩
  · match v with
    | .none | .nan | .int _ | .float _ _ => exact ⟨_, rfl⟩
    | .date d => exact ⟨Option.none, by simp [to_int, pyFloatOfCell]⟩
    | .str s =>
      rcases hF : pyFloatOfChars s with e | ⟨d, sg⟩
      · have he := pyFloatOfChars_error_eq s e hF
        subst he
        exact ⟨Option.none, by simp [to_int, pyFloatOfCell, hF]⟩
      · exact ⟨some d.rnd, by simp [to_int, pyFloatOfCell, hF]⟩
  · match v with
    | .none | .nan | .int _ | .float _ _ => exact ⟨_, rfl⟩
    | .date d => exact ⟨Option.none, by simp [to_float, pyFloatOfCell]⟩
    | .str s =>
      rcases hF : pyFloatOfChars s with e | ⟨d, sg⟩
      · have he := pyFloatOfChars_error_eq s e hF
        subst he
        exact ⟨Option.none, by simp [to_float, pyFloatOfCell, hF]⟩
      · exact ⟨some (pyRound2 d sg), by simp [to_float, pyFloatOfCell, hF]⟩
  · match v with
    | .none | .nan | .int _ | .float _ _ => exact ⟨_, rfl⟩
    | .str _ | .date _ =>
      simp only [parse_decimal]
      split
      · exact ⟨_, rfl⟩
      · split
        · exact ⟨_, rfl⟩
        · next e hne hF =>
          have he := pyFloatOfChars_error_eq _ _ hF
          exact absurd he (by simpa using hne)
        · exact ⟨_, rfl⟩

/-- C7 (the code evaluated at the failing input): the permits `clean_text` is
not idempotent.  On `"a ' b"` the pass dropping a quote before whitespace runs
after the whitespace collapse, so removing the apostrophe leaves the two
surrounding spaces adjacent: `clean_text` gives `"a  b"`, while a second
application gives `"a b"`. -/
theorem C7_clean_text_failing_input :
    Permits.clean_text (.str ['a', ' ', Char.ofNat 39, ' ', 'b']) =
      some ['a', ' ', ' ', 'b'] ∧
    Permits.clean_text (.str ['a', ' ', ' ', 'b']) = some ['a', ' ', 'b'] ∧
    ¬ (some ['a', ' ', ' ', 'b'] = some ['a', ' ', 'b']) := by
  refine ⟨by decide, by decide, by decide⟩

/-- C4 counterexample: for an already-numeric input the negative-zero
normalization of the claim does not happen — `parse_decimal` on the float
`-0.0` returns negative zero unchanged, because the numeric branch returns
`round(float(value), 2)` directly, before the normalization that only the
string branch performs. -/
theorem C4_counterexample_negative_zero :
    parse_decimal (.float ⟨0, 0⟩ true) = .ok (some ⟨0, true⟩) ∧
    (⟨0, true⟩ : PyFloat) ≠ ⟨0, false⟩ := by
  refine ⟨by decide, by decide⟩

/-- C4 as amended: the string rules hold as claimed — currency symbols and
spaces stripped, comma decimal separator, all dots but the last removed when
more than one remains, rounding to 2 digits, negative zero normalized, null
for unparseable input, `"1.234,50" ↦ 1234.5` (123450 cents) and `"  " ↦
null` — and already-numeric inputs are rounded to 2 digits, but without the
negative-zero normalization, which the code applies only on the string path. -/
theorem C4_decimal_amended :
    parse_decimal (.str "1.234,50".data) = .ok (some ⟨123450, false⟩) ∧
    parse_decimal (.str "  ".data) = .ok Option.none ∧
    parse_decimal RawCell.none = .ok Option.none ∧
    parse_decimal RawCell.nan = .ok Option.none ∧
    (∀ d nz, parse_decimal (.float d nz) = .ok (some (pyRound2 d nz))) ∧
    (∀ n : Int, parse_decimal (.int n) = .ok (some (pyRound2 ⟨n, 0⟩ false))) ∧
    (∀ s r, parse_decimal (.str s) = .ok (some r) → r.negZero = false) := by
  refine ⟨by decide, by decide, rfl, rfl, fun d nz => rfl, fun n => rfl, ?_⟩
  intro s r h
  simp only [parse_decimal] at h
  split at h
  · simp at h
  · split at h
    · simp at h
    · simp at h
    · next d sg hF =>
      simp only [Except.ok.injEq, Option.some.injEq] at h
      rw [← h]
      split
      · rfl
      · next hc =>
        simp only [pyRound2] at hc ⊢
        simp [show ¬ (d.rnd2 = 0) from by simpa [pyRound2] using hc]

/-- C5 counterexample: the accreditation `format_date` does not parse
day-first (it calls `pd.to_datetime` without `dayfirst=True`), so the input
`"05/03/2024"` coerces to `"2024-05-03"`, not `"2024-03-05"` as the claim
states for both pipelines. -/
theorem C5_counterexample_format_date :
    Accred.format_date (.str "05/03/2024".data) = some "2024-05-03".data ∧
    ¬ (("2024-05-03".data : List Char) = "2024-03-05".data) := by
  refine ⟨by decide, by decide⟩

/-- Every date `pd.to_datetime` produces is within the `Timestamp` bounds. -/
theorem pd_to_datetime_bounds (b : Bool) (v : RawCell) (d : PyDate)
    (h : pd_to_datetime b v = some d) : tsInBounds d = true := by
  cases v <;> simp only [pd_to_datetime] at h
  case none => cases h
  case nan => cases h
  case int n =>
    simp only [Option.ite_none_right_eq_some] at h
    obtain ⟨hc, heq⟩ := h
    injection heq with heq
    subst heq
    exact hc
  case float dec nz =>
    simp only [Option.ite_none_right_eq_some] at h
    obtain ⟨hc, heq⟩ := h
    injection heq with heq
    subst heq
    exact hc
  case date d0 =>
    simp only [Option.ite_none_right_eq_some] at h
    obtain ⟨hc, heq⟩ := h
    injection heq with heq
    subst heq
    exact hc
  case str s =>
    rcases hp : parseSlashDate b s with _ | d0 <;> rw [hp] at h
    · cases h
    · simp only [Option.ite_none_right_eq_some] at h
      obtain ⟨hc, heq⟩ := h
      injection heq with heq
      subst heq
      exact hc

/-- The decimal digit of `n % 10` is a digit character. -/
theorem digitCh_isDigit (n : Nat) : (digitCh n).isDigit = true := by
  unfold digitCh
  have hlt : n % 10 < 10 := Nat.mod_lt _ (by omega)
  revert hlt
  generalize n % 10 = k
  intro hlt
  interval_cases k <;> decide

/-- C5 as amended: the permits `parse_date` parses day-first (`"05/03/2024" ↦
"2024-03-05"`), while the accreditation `format_date` uses the pandas default
month-first preference for ambiguous strings (`"05/03/2024" ↦ "2024-05-03"`);
both always return either null or an ISO `YYYY-MM-DD` rendering of an
in-bounds date, never a locale-formatted string. -/
theorem C5_dates_amended :
    Permits.parse_date (.str "05/03/2024".data) = some "2024-03-05".data ∧
    Accred.format_date (.str "05/03/2024".data) = some "2024-05-03".data ∧
    (∀ v s, Permits.parse_date v = some s → ∃ d, tsInBounds d = true ∧ s = isoDate d) ∧
    (∀ v s, Accred.format_date v = some s → ∃ d, tsInBounds d = true ∧ s = isoDate d) ∧
    (∀ d, isIsoShape (isoDate d) = true) := by
  refine ⟨by decide, by decide, ?_, ?_, ?_⟩
  · intro v s h
    cases v
    all_goals simp only [Permits.parse_date] at h
    · cases h
    · cases h
    all_goals
      rcases Option.map_eq_some'.mp h with ⟨d, hd, hs⟩
      exact ⟨d, pd_to_datetime_bounds _ _ _ hd, hs.symm⟩
  · intro v s h
    cases v
    all_goals simp only [Accred.format_date] at h
    · cases h
    · cases h
    all_goals
      rcases Option.map_eq_some'.mp h with ⟨d, hd, hs⟩
      exact ⟨d, pd_to_datetime_bounds _ _ _ hd, hs.symm⟩
  · intro d
    simp [isoDate, pad2, isIsoShape, digitCh_isDigit]

/-- C4 witness: the amended string-path rule at a concrete input — parsing
`"-0.004"` rounds to zero and the negative zero is normalized away. -/
theorem C4_amended_witness :
    parse_decimal (.str "-0.004".data) = .ok (some ⟨0, false⟩) ∧
    (⟨0, false⟩ : PyFloat).negZero = false :=
  ⟨by decide, C4_decimal_amended.2.2.2.2.2.2 "-0.004".data ⟨0, false⟩ (by decide)⟩

/-- C5 witness: the amended ISO-output rule at a concrete input. -/
theorem C5_amended_witness :
    Permits.parse_date (.str "25/12/2024".data) = some "2024-12-25".data ∧
    (∃ d, tsInBounds d = true ∧ ("2024-12-25".data : List Char) = isoDate d) :=
  ⟨by decide,
   C5_dates_amended.2.2.1 (.str "25/12/2024".data) "2024-12-25".data (by decide)⟩

/-- When no row of the frame has a cell whose normalized text starts with the
issuance-date marker, the scan fails from any start index. -/
theorem findHeaderRowAux_error (frame : List (List RawCell))
    (h : ∀ row ∈ frame, ∀ cell ∈ row,
      ("data e leshimit".data.isPrefixOf (Permits.normalize_header cell)) = false) :
    ∀ i, findHeaderRowAux i frame = .error .headerNotFound := by
  induction frame with
  | nil => intro i; rfl
  | cons row rest ih =>
    intro i
    have hany : (row.any (fun cell =>
        "data e leshimit".data.isPrefixOf (Permits.normalize_header cell))) = false := by
      rw [List.any_eq_false]
      intro c hc
      simp [h row (List.mem_cons_self _ _) c hc]
    simp only [findHeaderRowAux, hany]
    simp only [Bool.false_eq_true, if_false]
    exact ih (fun r hr c hc => h r (List.mem_cons_of_mem _ hr) c hc) _

/-- When no row's first cell cleans to text containing the institution
marker, the accreditation scan fails from any start index. -/
theorem findHeaderRowAccAux_error (preview : List (List RawCell))
    (h : ∀ row ∈ preview, ((Accred.clean_text (row.getD 0 RawCell.nan)).all
      (fun t => !(containsSeq "institucioni".data (t.map pyLower)))) = true) :
    ∀ i, findHeaderRowAccAux i preview = .error .headerNotFound := by
  induction preview with
  | nil => intro i; rfl
  | cons row rest ih =>
    intro i
    have hr := h row (List.mem_cons_self _ _)
    simp only [findHeaderRowAccAux]
    rcases hc : Accred.clean_text (row.getD 0 RawCell.nan) with _ | t
    · exact ih (fun r hm => h r (List.mem_cons_of_mem _ hm)) _
    · rw [hc] at hr
      simp only [Option.all_some, Bool.not_eq_true'] at hr
      simp only [hr, Bool.false_eq_true, if_false]
      exact ih (fun r hm => h r (List.mem_cons_of_mem _ hm)) _

/-- C6: structural failures are fatal and propagate as errors.  When no row
passes the header-marker test, `find_header_row` (permits) and the header
scan of `load_accredited_dataframe` (accreditation) return the header-not-
found error rather than any result; and when the resolved headers map no
column to `institution`, `parse_accredited_programmes` returns the
institution-missing error — in each case the `Except` is an error, so no
partial record list is returned. -/
theorem C6_structural_failures :
    (∀ frame, (∀ row ∈ frame, ∀ cell ∈ row,
        ("data e leshimit".data.isPrefixOf (Permits.normalize_header cell)) = false) →
      find_header_row frame = .error .headerNotFound) ∧
    (∀ preview, (∀ row ∈ preview, ((Accred.clean_text (row.getD 0 RawCell.nan)).all
        (fun t => !(containsSeq "institucioni".data (t.map pyLower)))) = true) →
      load_accredited_header preview = .error .headerNotFound) ∧
    (∀ preview hIdx, load_accredited_header preview = .ok hIdx →
      ((accRenameTargets (preview.getD hIdx [])).any
        (fun t => t = some "institution")) = false →
      parse_accredited_programmes preview = .error .institutionMissing) := by
  refine ⟨?_, ?_, ?_⟩
  · intro frame h
    exact findHeaderRowAux_error frame h 0
  · intro preview h
    exact findHeaderRowAccAux_error preview h 0
  · intro preview hIdx h1 h2
    simp only [parse_accredited_programmes, h1, h2]
    rfl

/-- C6 witness: the three failure modes on concrete sheets. -/
theorem C6_witness :
    find_header_row noHeaderW = .error .headerNotFound ∧
    load_accredited_header noHeaderW = .error .headerNotFound ∧
    parse_accredited_programmes accNoInstW = .error .institutionMissing :=
  ⟨C6_structural_failures.1 noHeaderW (by decide),
   C6_structural_failures.2.1 noHeaderW (by decide),
   C6_structural_failures.2.2 accNoInstW 0 (by decide) (by decide)⟩

/-- Overwriting all entries of a key in an association list. -/
theorem lookupAL_overwrite (m : List (String × String)) (k v k' : String) :
    lookupAL (m.map (fun p => if p.1 = k then (k, v) else p)) k' =
      if k' = k then (lookupAL m k').map (fun _ => v) else lookupAL m k' := by
  induction m with
  | nil => simp only [List.map_nil, lookupAL, Option.map_none']; split <;> rfl
  | cons p rest ih =>
    simp only [List.map_cons, lookupAL]
    by_cases hp : p.1 = k <;> by_cases hk : k' = k
    · subst hk; simp [hp, lookupAL, ih]
    · have hkk : ¬(k = k') := fun h => hk h.symm
      simp [hp, hkk, hk, ih, lookupAL]
    · subst hk; simp [hp, lookupAL, ih]
    · simp [hp, hk, ih, lookupAL]

/-- Lookup across an append. -/
theorem lookupAL_append (m₁ m₂ : List (String × String)) (k : String) :
    lookupAL (m₁ ++ m₂) k = (lookupAL m₁ k).elim (lookupAL m₂ k) some := by
  induction m₁ with
  | nil => simp [lookupAL]
  | cons p rest ih =>
    simp only [List.cons_append, lookupAL]
    by_cases hp : p.1 = k <;> simp_all

/-- Lookup of an absent key. -/
theorem lookupAL_none_of_not_any (m : List (String × String)) (k : String)
    (h : m.any (fun p => p.1 = k) = false) : lookupAL m k = Option.none := by
  induction m with
  | nil => rfl
  | cons p rest ih =>
    rw [List.any_cons] at h
    obtain ⟨h1, h2⟩ := Bool.or_eq_false_iff.mp h
    simp only [lookupAL]
    rw [if_neg (by simpa using h1)]
    exact ih h2

/-- Lookup of a present key. -/
theorem lookupAL_some_of_any (m : List (String × String)) (k : String)
    (h : m.any (fun p => p.1 = k) = true) : ∃ w, lookupAL m k = some w := by
  induction m with
  | nil => simp at h
  | cons p rest ih =>
    rw [List.any_cons] at h
    simp only [lookupAL]
    by_cases hp : p.1 = k
    · exact ⟨p.2, by simp [hp]⟩
    · rw [if_neg hp]
      apply ih
      rcases (by simpa using h : p.1 = k ∨ rest.any (fun p => p.1 = k) = true) with h1 | h2
      · exact absurd h1 hp
      · exact h2

/-- Dict assignment: the assigned key reads back the assigned value, other
keys are untouched. -/
theorem lookupAL_upsert (m : List (String × String)) (k v k' : String) :
    lookupAL (upsert m k v) k' = if k' = k then some v else lookupAL m k' := by
  unfold upsert
  split
  · next hany =>
    rw [lookupAL_overwrite]
    split
    · next hk =>
      subst hk
      obtain ⟨w, hw⟩ := lookupAL_some_of_any m k' hany
      simp [hw]
    · rfl
  · next hany =>
    rw [lookupAL_append]
    have hnone := lookupAL_none_of_not_any m k (Bool.eq_false_iff.mpr hany)
    by_cases hk : k' = k
    · subst hk
      rw [hnone]
      simp [lookupAL]
    · rw [if_neg hk]
      cases hl : lookupAL m k'
      · simp only [Option.elim]
        simp only [lookupAL]
        rw [if_neg (fun h => hk h.symm)]
      · simp [Option.elim]

/-- A `column_map` step on the label `"#"` maps it to `permit_number`. -/
theorem cmStep_hash (m : List (String × String)) :
    lookupAL (cmStep m "#") "#" = some "permit_number" := by
  rw [show cmStep m "#" = upsert m "#" "permit_number" from rfl]
  rw [lookupAL_upsert]
  simp

/-- A `column_map` step on any other label leaves the `"#"` entry alone. -/
theorem cmStep_other (m : List (String × String)) (c : String) (hc : ¬ c = "#") :
    lookupAL (cmStep m c) "#" = lookupAL m "#" := by
  simp only [cmStep, if_neg hc]
  cases hf : header_to_field c
  · rfl
  · simp only []
    rw [lookupAL_upsert]
    rw [if_neg (fun h => hc h.symm)]

/-- Folding the `column_map` loop: once the `"#"` column has been seen (or the
entry is already present), the map sends `"#"` to `permit_number`. -/
theorem buildColumnMap_fold (columns : List String) :
    ∀ m, ("#" ∈ columns ∨ lookupAL m "#" = some "permit_number") →
      lookupAL (columns.foldl cmStep m) "#" = some "permit_number" := by
  induction columns with
  | nil =>
    intro m hm
    rcases hm with hm | hm
    · cases hm
    · exact hm
  | cons c rest ih =>
    intro m hm
    rw [List.foldl_cons]
    by_cases hc : c = "#"
    · exact ih _ (Or.inr (by rw [hc]; exact cmStep_hash m))
    · rcases hm with hm | hm
      · rcases List.mem_cons.mp hm with h1 | h2
        · exact absurd h1.symm hc
        · exact ih _ (Or.inl h2)
      · exact ih _ (Or.inr (by rw [cmStep_other m c hc]; exact hm))

/-- The `column_map` of any column list containing `"#"` maps `"#"` to
`permit_number`. -/
theorem buildColumnMap_hash (columns : List String) (hmem : "#" ∈ columns) :
    lookupAL (buildColumnMap columns) "#" = some "permit_number" :=
  buildColumnMap_fold columns [] (Or.inl hmem)

/-- C9 counterexample: in the accreditation pipeline there is no positional
special case — column 0 is resolved from its label like every other column,
so a header whose first label is the institution label maps column 0 to
`institution`, not to the identifying field `program_number` the claim
requires. -/
theorem C9_counterexample_accreditation_column0 :
    accRenameTargets [.str "Institucioni i Arsimit të Lartë".data, .str "Nr.".data] =
      [some "institution", some "program_number"] ∧
    ¬ ((some "institution" : Option String) = some "program_number") := by
  refine ⟨by decide, by decide⟩

/-- C9 as amended: the column-0 special case exists only in the permits
pipeline — for every non-empty header row, `load_dataframe` labels column 0
`"#"` and `parse_workbook` maps `"#"` to `permit_number` whatever the cell
text was; the accreditation pipeline resolves every column, including column
0, from its normalized label only, mapping the label `"nr"` to
`program_number` at whatever position it occurs. -/
theorem C9_column_zero_amended :
    (∀ headerRow : List RawCell, headerRow ≠ [] →
      ∃ rest, loadColumns 0 headerRow = ("#", 0) :: rest) ∧
    (∀ columns : List String, "#" ∈ columns →
      lookupAL (buildColumnMap columns) "#" = some "permit_number") ∧
    (∀ labels : List RawCell, ∀ i : Nat, ∀ lab, labels[i]? = some lab →
      String.mk (Accred.normalize_header lab) = "nr" →
      (accRenameTargets labels)[i]? = some (some "program_number")) := by
  refine ⟨?_, buildColumnMap_hash, ?_⟩
  · intro headerRow hne
    match headerRow with
    | [] => exact absurd rfl hne
    | cell :: tail => exact ⟨_, rfl⟩
  · intro labels i lab hget hnr
    unfold accRenameTargets
    rw [List.getElem?_map, hget]
    simp only [Option.map_some']
    rw [hnr]
    rfl

/-- C9 witness: the amended statement at concrete inputs. -/
theorem C9_amended_witness :
    (∃ rest, loadColumns 0 [RawCell.str "Foo".data] = ("#", 0) :: rest) ∧
    lookupAL (buildColumnMap ["#", "Koment"]) "#" = some "permit_number" ∧
    (accRenameTargets [.str "Nr.".data])[0]? = some (some "program_number") :=
  ⟨C9_column_zero_amended.1 _ (by decide),
   C9_column_zero_amended.2.1 _ (by decide),
   C9_column_zero_amended.2.2 [.str "Nr.".data] 0 (.str "Nr.".data) (by decide) (by decide)⟩

/-- Updating an existing key in place does not change the key sequence. -/
theorem setKey_keys (r : Record) (k : String) (v : JVal) :
    (setKey r k v).map Prod.fst = r.map Prod.fst := by
  simp only [setKey, List.map_map]
  apply List.map_congr_left
  intro p _
  by_cases hp : p.1 = k <;> simp [hp]

/-- The key sequence of the `build_record` loop: the 14 non-URL fields of
`FIELD_ORDER`, in order, whatever the row contains. -/
theorem buildRecordBase_keys (row : List (String × RawCell)) :
    (buildRecordBase row).map Prod.fst =
      ["permit_number", "application_date", "issuance_date", "owner", "investor",
       "designer", "neighbourhood", "total_floor_area_m2", "density_fee_eur",
       "administrative_fee_eur", "total_fee_eur", "storeys", "destination",
       "document_reference"] := rfl

/-- The destination fallback of `build_record` never changes the key
sequence. -/
theorem build_record_keys (row : List (String × RawCell)) (b : Bool) :
    (build_record row b).map Prod.fst = (buildRecordBase row).map Prod.fst := by
  unfold build_record
  dsimp only
  split
  · split
    · split
      · rw [setKey_keys]
      · rfl
    · rfl
  · rfl

/-- C2: every record emitted by `parse_workbook` has exactly the 16 keys of
`FIELD_ORDER` in order (including `document_url` and `situation_url`), and
every record emitted by `parse_accredited_programmes` has exactly the 9 keys
of `ACCREDITED_FIELD_ORDER` in order, regardless of which raw columns were
present in the sheet; values may be null. -/
theorem C2_record_keys :
    (∀ preview sheet recs, parse_workbook preview sheet = .ok recs →
      ∀ r ∈ recs, r.map Prod.fst = FIELD_ORDER) ∧
    (∀ preview recs, parse_accredited_programmes preview = .ok recs →
      ∀ r ∈ recs, r.map Prod.fst = ACCREDITED_FIELD_ORDER) := by
  constructor
  · intro preview sheet recs h r hr
    rcases hH : find_header_row preview with e | headerIdx <;>
      simp only [parse_workbook, hH] at h
    · cases h
    injection h with h
    subst h
    rcases List.mem_filterMap.mp hr with ⟨pr, hmem, hf⟩
    split at hf
    · cases hf
    · split at hf
      · cases hf
      · injection hf with hf
        subst hf
        rw [List.map_append]
        rw [build_record_keys]
        rw [buildRecordBase_keys]
        rfl
  · intro preview recs h r hr
    rcases hH : load_accredited_header preview with e | headerIdx <;>
      simp only [parse_accredited_programmes, hH] at h
    · cases h
    split at h
    · cases h
    split at h
    · cases h
    injection h with h
    subst h
    rcases List.mem_filterMap.mp hr with ⟨row, hmem, hf⟩
    unfold accBuildRecord at hf
    dsimp only at hf
    split at hf
    · cases hf
    · injection hf with hf
      subst hf
      rfl

/-- C2 witness: both parsers on concrete sheets, with the key sequences of
the extracted records checked. -/
theorem C2_witness :
    parse_workbook wbW sheetW = .ok [wbWRecord] ∧
    parse_accredited_programmes accW = .ok [accWRecord] ∧
    (∀ r ∈ [wbWRecord], r.map Prod.fst = FIELD_ORDER) ∧
    (∀ r ∈ [accWRecord], r.map Prod.fst = ACCREDITED_FIELD_ORDER) :=
  ⟨by decide, by decide,
   C2_record_keys.1 wbW sheetW [wbWRecord] (by decide),
   C2_record_keys.2 accW [accWRecord] (by decide)⟩

/-- The `build_record` loop unrolled over the concrete `FIELD_ORDER`. -/
theorem buildRecordBase_eq (row : List (String × RawCell)) :
    buildRecordBase row =
      [("permit_number", buildFieldValue row "permit_number"),
       ("application_date", buildFieldValue row "application_date"),
       ("issuance_date", buildFieldValue row "issuance_date"),
       ("owner", buildFieldValue row "owner"),
       ("investor", buildFieldValue row "investor"),
       ("designer", buildFieldValue row "designer"),
       ("neighbourhood", buildFieldValue row "neighbourhood"),
       ("total_floor_area_m2", buildFieldValue row "total_floor_area_m2"),
       ("density_fee_eur", buildFieldValue row "density_fee_eur"),
       ("administrative_fee_eur", buildFieldValue row "administrative_fee_eur"),
       ("total_fee_eur", buildFieldValue row "total_fee_eur"),
       ("storeys", buildFieldValue row "storeys"),
       ("destination", buildFieldValue row "destination"),
       ("document_reference", buildFieldValue row "document_reference")] := rfl

/-- The permit-number slot of a built record is the cleaned permit cell: the
destination fallback cannot touch it, and the appended URL fields come after
it. -/
theorem recordGet_build_permit (row : List (String × RawCell)) (b : Bool) (t : Record) :
    recordGet (build_record row b ++ t) "permit_number" =
      optS (Permits.clean_text (rowGet row "permit_number")) := by
  unfold build_record
  dsimp only
  rw [buildRecordBase_eq]
  split
  · split
    · split
      · simp [setKey, recordGet, buildFieldValue]
        exact fun hmem => absurd (by decide) hmem
      · simp [recordGet, buildFieldValue]
        exact fun hmem => absurd (by decide) hmem
    · simp [recordGet, buildFieldValue]
      exact fun hmem => absurd (by decide) hmem
  · simp [recordGet, buildFieldValue]
    exact fun hmem => absurd (by decide) hmem

/-- Rows kept by `dropna(how="all")` are never fully blank. -/
theorem dataRows_not_blank (preview : List (List RawCell)) (hIdx : Nat)
    (positions : List Nat) (pr : Nat × List RawCell)
    (h : pr ∈ dataRows preview hIdx positions) : allNa pr.2 = false := by
  unfold dataRows at h
  rcases List.mem_filter.mp h with ⟨_, hp⟩
  simpa using hp

/-- C3: the drop rules.  A fully blank row never enters the data-row list, and
every emitted record carries a non-blank identifying field: in the permits
pipeline the permit number of every emitted record is non-null (so a row
whose permit number is blank after cleaning contributes no record), and in
the accreditation pipeline every emitted record has a non-null programme_sq
or programme_en (so a row whose two programme names are blank after cleaning
contributes no record). -/
theorem C3_drop_rules :
    (∀ preview hIdx positions pr, pr ∈ dataRows preview hIdx positions →
      allNa pr.2 = false) ∧
    (∀ preview sheet recs, parse_workbook preview sheet = .ok recs →
      ∀ r ∈ recs, recordGet r "permit_number" ≠ JVal.null) ∧
    (∀ preview recs, parse_accredited_programmes preview = .ok recs →
      ∀ r ∈ recs, recordGet r "programme_sq" ≠ JVal.null ∨
        recordGet r "programme_en" ≠ JVal.null) := by
  refine ⟨dataRows_not_blank, ?_, ?_⟩
  · intro preview sheet recs h r hr
    rcases hH : find_header_row preview with e | headerIdx <;>
      simp only [parse_workbook, hH] at h
    · cases h
    injection h with h
    subst h
    rcases List.mem_filterMap.mp hr with ⟨pr, hmem, hf⟩
    split at hf
    · cases hf
    · split at hf
      · cases hf
      · next tv hclean =>
        injection hf with hf
        subst hf
        rw [recordGet_build_permit]
        rw [hclean]
        simp [optS]
  · intro preview recs h r hr
    rcases hH : load_accredited_header preview with e | headerIdx <;>
      simp only [parse_accredited_programmes, hH] at h
    · cases h
    split at h
    · cases h
    split at h
    · cases h
    injection h with h
    subst h
    rcases List.mem_filterMap.mp hr with ⟨row, hmem, hf⟩
    unfold accBuildRecord at hf
    dsimp only at hf
    split at hf
    · cases hf
    · next hcond =>
      injection hf with hf
      subst hf
      show optS (Accred.clean_text (row.getD 2 RawCell.nan)) ≠ JVal.null ∨
        optS (Accred.clean_text (row.getD 3 RawCell.nan)) ≠ JVal.null
      rcases hpsq : Accred.clean_text (row.getD 2 RawCell.nan) with _ | u
      · right
        rcases hpen : Accred.clean_text (row.getD 3 RawCell.nan) with _ | w
        · exact absurd (by rw [hpsq, hpen]; decide) hcond
        · simp [optS]
      · left
        simp [hpsq, optS]

/-- C3 witness: the drop rules at the concrete sheets (in `wbW` and `accW`
the second data row of the source — blank permit / blank programme pair —
yields nothing). -/
theorem C3_witness :
    parse_workbook wbW sheetW = .ok [wbWRecord] ∧
    parse_accredited_programmes accW = .ok [accWRecord] ∧
    (∀ r ∈ [wbWRecord], recordGet r "permit_number" ≠ JVal.null) ∧
    (∀ r ∈ [accWRecord], recordGet r "programme_sq" ≠ JVal.null ∨
      recordGet r "programme_en" ≠ JVal.null) :=
  ⟨by decide, by decide,
   C3_drop_rules.2.1 wbW sheetW [wbWRecord] (by decide),
   C3_drop_rules.2.2 accW [accWRecord] (by decide)⟩

/-- C10: in the accreditation pipeline every emitted record originates from a
(selected, forward-filled) row whose institution cell is non-null — rows whose
institution is still null after the forward fill are dropped and never
emitted, even when a programme name is present. -/
theorem C10_institution_drop :
    ∀ preview recs, parse_accredited_programmes preview = .ok recs →
      ∀ rec ∈ recs, ∃ headerIdx row,
        load_accredited_header preview = .ok headerIdx ∧
        row ∈ accFfill RawCell.nan ((preview.drop (headerIdx + 1)).map
          (accSelect (accColumns (preview.getD headerIdx [])))) ∧
        isnaCell (row.getD 0 RawCell.nan) = false ∧
        accBuildRecord row = some rec := by
  intro preview recs h rec hr
  rcases hH : load_accredited_header preview with e | headerIdx <;>
    simp only [parse_accredited_programmes, hH] at h
  · cases h
  split at h
  · cases h
  split at h
  · cases h
  injection h with h
  subst h
  rcases List.mem_filterMap.mp hr with ⟨row, hmem, hf⟩
  unfold accKept at hmem
  rcases List.mem_filter.mp hmem with ⟨hmem2, hinst⟩
  rcases List.mem_filter.mp hmem2 with ⟨hmem3, _⟩
  exact ⟨headerIdx, row, rfl, hmem3, by simpa using hinst, hf⟩

/-- C10 witness: in `accW2` the first data row has a programme name but no
institution above it to forward-fill from; only the second row's record is
emitted, and it comes from a row with a non-null institution. -/
theorem C10_witness :
    parse_accredited_programmes accW2 = .ok [accWRecord] ∧
    (∃ headerIdx row, load_accredited_header accW2 = .ok headerIdx ∧
      row ∈ accFfill RawCell.nan ((accW2.drop (headerIdx + 1)).map
        (accSelect (accColumns (accW2.getD headerIdx [])))) ∧
      isnaCell (row.getD 0 RawCell.nan) = false ∧
      accBuildRecord row = some accWRecord) :=
  ⟨by decide,
   C10_institution_drop accW2 [accWRecord] (by decide) accWRecord (by decide)⟩

/-
Character-class support lemmas for the `normalize_header` theorems.
-/

/-- A character outside a translation table is a fixed point. -/
theorem charMap_eq_self (t : List (Char × Char)) (c : Char)
    (h : ∀ p ∈ t, ¬ p.1 = c) : charMap t c = c := by
  induction t with
  | nil => rfl
  | cons p rest ih =>
    simp only [charMap]
    rw [if_neg (h p (List.mem_cons_self _ _))]
    exact ih (fun q hq => h q (List.mem_cons_of_mem _ hq))

/-- A character outside a decomposition table decomposes to itself. -/
theorem charMapL_eq_self (t : List (Char × List Char)) (c : Char)
    (h : ∀ p ∈ t, ¬ p.1 = c) : charMapL t c = [c] := by
  induction t with
  | nil => rfl
  | cons p rest ih =>
    simp only [charMapL]
    rw [if_neg (h p (List.mem_cons_self _ _))]
    exact ih (fun q hq => h q (List.mem_cons_of_mem _ hq))

theorem pyLower_eq_self (c : Char) (h : c ∉ lowerSupp) : pyLower c = c := by
  apply charMap_eq_self
  intro p hp he
  exact h (he ▸ (by decide : ∀ q ∈ lowerTable, q.1 ∈ lowerSupp) p hp)

theorem deAccentChar_eq_self (c : Char) (h : c ∉ deAccSupp) : deAccentChar c = c := by
  apply charMap_eq_self
  intro p hp he
  refine h (he ▸ ?_)
  fin_cases hp <;> decide

theorem nfkdChar_eq_self (c : Char) (h : c ∉ nfkdSupp) : nfkdChar c = [c] := by
  apply charMapL_eq_self
  intro p hp he
  refine h (he ▸ ?_)
  fin_cases hp <;> decide

theorem skelChar_eq_self (c : Char) (h : c ∉ skelSupp) : skelChar c = c := by
  have h1 : c ∉ lowerSupp := fun hm => h (List.mem_append.mpr (Or.inl hm))
  have h2 : c ∉ deAccSupp := fun hm => h (List.mem_append.mpr (Or.inr hm))
  unfold skelChar
  rw [pyLower_eq_self c h1, deAccentChar_eq_self c h2]

/-- The key character computation behind case/diacritic insensitivity: after
lowercasing, NFKD and combining-mark removal, a character and its skeleton
coincide. -/
theorem skel_nfkd (c : Char) :
    (nfkdChar (pyLower (skelChar c))).filter (fun d => !(isCombining d)) =
      (nfkdChar (pyLower c)).filter (fun d => !(isCombining d)) := by
  by_cases hc : c ∈ skelSupp
  · fin_cases hc <;> decide
  · rw [skelChar_eq_self c hc]

theorem skel_isPySpace (c : Char) : isPySpace (skelChar c) = isPySpace c := by
  by_cases hc : c ∈ skelSupp
  · fin_cases hc <;> decide
  · rw [skelChar_eq_self c hc]

/-- `skelChar` neither produces nor destroys a character that it does not
move, such as the separators the cleaning scanners test for. -/
theorem skel_eq_iff (c ch : Char) (h1 : ch ∉ skelSupp)
    (h2 : ∀ d ∈ skelSupp, ¬ skelChar d = ch) : skelChar c = ch ↔ c = ch := by
  by_cases hc : c ∈ skelSupp
  · constructor
    · intro he
      exact absurd he (h2 c hc)
    · intro he
      subst he
      exact absurd hc h1
  · rw [skelChar_eq_self c hc]

theorem skel_eq_comma (c : Char) : skelChar c = ',' ↔ c = ',' :=
  skel_eq_iff c ',' (by decide) (by decide)

theorem skel_eq_space (c : Char) : skelChar c = ' ' ↔ c = ' ' :=
  skel_eq_iff c ' ' (by decide) (by decide)

theorem skel_eq_nl (c : Char) : skelChar c = '\n' ↔ c = '\n' :=
  skel_eq_iff c '\n' (by decide) (by decide)

theorem skel_eq_cr (c : Char) : skelChar c = '\r' ↔ c = '\r' :=
  skel_eq_iff c '\r' (by decide) (by decide)

theorem skel_eq_quoteS (c : Char) : skelChar c = quoteS ↔ c = quoteS :=
  skel_eq_iff c quoteS (by decide) (by decide)

theorem skel_eq_quoteD (c : Char) : skelChar c = quoteD ↔ c = quoteD :=
  skel_eq_iff c quoteD (by decide) (by decide)

/-- A character of the normalized alphabet differs from any character outside
it. -/
theorem az_ne (c ch : Char) (h : isAz09Space c = true) (hch : isAz09Space ch = false) :
    ¬ c = ch := by
  intro he
  subst he
  rw [h] at hch
  cases hch

/-- A character of the normalized alphabet is not in a support list whose
members are all outside the alphabet. -/
theorem az_not_mem (c : Char) (S : List Char) (h : isAz09Space c = true)
    (hS : ∀ d ∈ S, isAz09Space d = false) : c ∉ S := by
  intro hc
  have := hS c hc
  rw [h] at this
  cases this

theorem az_pyLower (c : Char) (h : isAz09Space c = true) : pyLower c = c :=
  pyLower_eq_self c (az_not_mem c lowerSupp h (by decide))

theorem az_nfkd (c : Char) (h : isAz09Space c = true) : nfkdChar c = [c] :=
  nfkdChar_eq_self c (az_not_mem c nfkdSupp h (by decide))

theorem az_isCombining (c : Char) (h : isAz09Space c = true) : isCombining c = false := by
  have h1 := az_ne c '̈' h (by decide)
  have h2 := az_ne c '́' h (by decide)
  have h3 := az_ne c '̧' h (by decide)
  simp [isCombining, h1, h2, h3]

/-- A whitespace character of the normalized alphabet is the space. -/
theorem az_space (c : Char) (h : isAz09Space c = true) (hw : isPySpace c = true) :
    c = ' ' := by
  have : ((((c = ' ' ∨ c = '\t') ∨ c = '\n') ∨ c = '\x0d') ∨ c = '\x0b') ∨
      c = '\x0c' := by
    simpa [isPySpace] using hw
  rcases this with ((((h1 | h1) | h1) | h1) | h1) | h1 <;> subst h1 <;>
    first | rfl | exact absurd h (by decide)

/-
Generic facts about `dropWhile`, `stripBoth` and `subRunsAux`, the building
blocks of both `normalize_header` pipelines.
-/

/-- A member of `dropWhile p l` is a member of `l`. -/
theorem mem_of_mem_dropWhile {p : Char → Bool} {l : List Char} {c : Char}
    (h : c ∈ l.dropWhile p) : c ∈ l := by
  induction l with
  | nil => exact absurd h (by simp)
  | cons d ds ih =>
    rw [List.dropWhile_cons] at h
    by_cases hd : p d = true
    · rw [if_pos hd] at h
      exact List.mem_cons_of_mem _ (ih h)
    · rw [if_neg hd] at h
      exact h

/-- The head of `dropWhile p l` does not satisfy `p`. -/
theorem head_dropWhile_false {p : Char → Bool} {l : List Char} {c : Char}
    (h : (l.dropWhile p).head? = some c) : p c = false := by
  induction l with
  | nil => exact absurd h (by simp)
  | cons d ds ih =>
    rw [List.dropWhile_cons] at h
    by_cases hd : p d = true
    · rw [if_pos hd] at h
      exact ih h
    · rw [if_neg hd] at h
      injection h with h
      subst h
      exact Bool.eq_false_iff.mpr hd

/-- `dropWhile` on a list whose head already fails `p` is the identity. -/
theorem dropWhile_id_of_head {p : Char → Bool} {l : List Char}
    (h : ∀ d, l.head? = some d → p d = false) : l.dropWhile p = l := by
  cases l with
  | nil => rfl
  | cons c cs =>
    rw [List.dropWhile_cons, if_neg]
    rw [h c rfl]
    simp

/-- A member of `stripBoth p l` is a member of `l`. -/
theorem stripBoth_mem {p : Char → Bool} {l : List Char} {c : Char}
    (h : c ∈ stripBoth p l) : c ∈ l := by
  unfold stripBoth at h
  rw [List.mem_reverse] at h
  have h2 := mem_of_mem_dropWhile h
  rw [List.mem_reverse] at h2
  exact mem_of_mem_dropWhile h2

/-- The head of `stripBoth p l` fails `p`. -/
theorem stripBoth_head {p : Char → Bool} {l : List Char} {d : Char}
    (h : (stripBoth p l).head? = some d) : p d = false := by
  unfold stripBoth at h
  obtain ⟨u, hu⟩ := List.dropWhile_suffix (l := (l.dropWhile p).reverse) p
  have hA : ((l.dropWhile p).reverse.dropWhile p).reverse ++ u.reverse = l.dropWhile p := by
    rw [← List.reverse_append, hu, List.reverse_reverse]
  rcases hB : ((l.dropWhile p).reverse.dropWhile p).reverse with _ | ⟨e, es⟩
  · rw [hB] at h
    exact absurd h (by simp)
  · rw [hB] at h hA
    injection h with h
    rw [List.cons_append] at hA
    rw [← h]
    exact head_dropWhile_false (p := p) (l := l) (by rw [← hA]; rfl)

/-- The last character of `stripBoth p l` fails `p`. -/
theorem stripBoth_last {p : Char → Bool} {l : List Char} {d : Char}
    (h : (stripBoth p l).reverse.head? = some d) : p d = false := by
  unfold stripBoth at h
  rw [List.reverse_reverse] at h
  exact head_dropWhile_false h

/-- `stripBoth` is the identity when both ends already fail `p`. -/
theorem stripBoth_id {p : Char → Bool} {l : List Char}
    (hh : ∀ d, l.head? = some d → p d = false)
    (hl : ∀ d, l.reverse.head? = some d → p d = false) : stripBoth p l = l := by
  unfold stripBoth
  rw [dropWhile_id_of_head hh, dropWhile_id_of_head hl, List.reverse_reverse]

/-- `stripBoth` commutes with `map f` when `f` does not change `p`. -/
theorem stripBoth_map {p : Char → Bool} {f : Char → Char}
    (hp : ∀ c, p (f c) = p c) (l : List Char) :
    stripBoth p (l.map f) = (stripBoth p l).map f := by
  unfold stripBoth
  rw [List.dropWhile_map, show (p ∘ f) = p from funext hp, ← List.map_reverse,
    List.dropWhile_map, show (p ∘ f) = p from funext hp, ← List.map_reverse]

/-- A `Chain'` holds on a suffix. -/
theorem chain'_of_suffix {R : Char → Char → Prop} {l l' : List Char}
    (hs : l' <:+ l) (h : List.Chain' R l) : List.Chain' R l' := by
  obtain ⟨u, hu⟩ := hs
  rw [← hu] at h
  exact (List.chain'_append.mp h).2.1

/-- A symmetric `Chain'` transfers to the reverse list. -/
theorem chain'_reverse_of {R : Char → Char → Prop} (hR : ∀ a b, R a b → R b a)
    {l : List Char} (h : List.Chain' R l) : List.Chain' R l.reverse := by
  rw [List.chain'_reverse]
  exact h.imp (fun a b hab => hR a b hab)

/-- A symmetric `Chain'` survives `stripBoth`. -/
theorem stripBoth_chain {R : Char → Char → Prop} (hR : ∀ a b, R a b → R b a)
    {p : Char → Bool} {l : List Char} (h : List.Chain' R l) :
    List.Chain' R (stripBoth p l) := by
  unfold stripBoth
  exact chain'_reverse_of hR
    (chain'_of_suffix (List.dropWhile_suffix p)
      (chain'_reverse_of hR (chain'_of_suffix (List.dropWhile_suffix p) h)))

/-- Characters of `subRunsAux` output: from the separator, or from the input
and failing `p`. -/
theorem subRunsAux_mem {p : Char → Bool} {sep : List Char} :
    ∀ {b : Bool} {l : List Char} {c : Char}, c ∈ subRunsAux p sep b l →
      c ∈ sep ∨ (p c = false ∧ c ∈ l) := by
  intro b l
  induction l generalizing b with
  | nil =>
    intro c h
    exact absurd h (by simp [subRunsAux])
  | cons d ds ih =>
    intro c h
    simp only [subRunsAux] at h
    by_cases hd : p d = true
    · rw [if_pos hd] at h
      cases b with
      | true =>
        rcases ih h with h | ⟨h1, h2⟩
        · exact Or.inl h
        · exact Or.inr ⟨h1, List.mem_cons_of_mem _ h2⟩
      | false =>
        simp only [Bool.false_eq_true, if_false, List.mem_append] at h
        rcases h with h | h
        · exact Or.inl h
        · rcases ih h with h | ⟨h1, h2⟩
          · exact Or.inl h
          · exact Or.inr ⟨h1, List.mem_cons_of_mem _ h2⟩
    · rw [if_neg hd] at h
      rcases List.mem_cons.mp h with h | h
      · subst h
        exact Or.inr ⟨Bool.eq_false_iff.mpr hd, List.mem_cons_self _ _⟩
      · rcases ih h with h | ⟨h1, h2⟩
        · exact Or.inl h
        · exact Or.inr ⟨h1, List.mem_cons_of_mem _ h2⟩

/-- `subRunsAux` is the identity when no character satisfies `p`. -/
theorem subRunsAux_id {p : Char → Bool} {sep : List Char} {l : List Char}
    (h : ∀ c ∈ l, p c = false) (b : Bool) : subRunsAux p sep b l = l := by
  induction l generalizing b with
  | nil => rfl
  | cons d ds ih =>
    have hd : p d = false := h d (List.mem_cons_self _ _)
    simp only [subRunsAux, hd, Bool.false_eq_true, if_false]
    rw [ih (fun c hc => h c (List.mem_cons_of_mem _ hc))]

/-- `subRunsAux` commutes with `map f` when `f` does not change `p` and fixes
the separator. -/
theorem subRunsAux_map {p : Char → Bool} {sep : List Char} {f : Char → Char}
    (hp : ∀ c, p (f c) = p c) (hsep : sep.map f = sep) (l : List Char) (b : Bool) :
    subRunsAux p sep b (l.map f) = (subRunsAux p sep b l).map f := by
  induction l generalizing b with
  | nil => rfl
  | cons d ds ih =>
    simp only [List.map_cons, subRunsAux, hp d]
    by_cases hd : p d = true
    · rw [if_pos hd, if_pos hd]
      cases b with
      | true => exact ih true
      | false =>
        simp only [Bool.false_eq_true, if_false, List.map_append, hsep, ih true]
    · rw [if_neg hd, if_neg hd, List.map_cons, ih false]

/-- The output of the whitespace collapse in run state has a non-whitespace
head. -/
theorem collapseAux_head :
    ∀ (l : List Char) (d : Char),
      (subRunsAux isPySpace [' '] true l).head? = some d → isPySpace d = false := by
  intro l
  induction l with
  | nil =>
    intro d h
    exact absurd h (by simp [subRunsAux])
  | cons c cs ih =>
    intro d h
    simp only [subRunsAux] at h
    by_cases hc : isPySpace c = true
    · rw [if_pos hc, if_pos trivial] at h
      exact ih d h
    · rw [if_neg hc] at h
      injection h with h
      subst h
      exact Bool.eq_false_iff.mpr hc

/-- The whitespace collapse never emits two adjacent whitespace characters. -/
theorem collapseAux_chain (l : List Char) :
    ∀ b, List.Chain' noWW (subRunsAux isPySpace [' '] b l) := by
  induction l with
  | nil =>
    intro b
    simp [subRunsAux]
  | cons c cs ih =>
    intro b
    simp only [subRunsAux]
    by_cases hc : isPySpace c = true
    · rw [if_pos hc]
      cases b with
      | true =>
        first
          | rw [if_pos trivial]
          | rw [if_pos rfl]
        exact ih true
      | false =>
        rw [if_neg (by simp), List.singleton_append, List.chain'_cons']
        exact ⟨fun d hd => Or.inr (collapseAux_head cs d hd), ih true⟩
    · rw [if_neg hc, List.chain'_cons']
      exact ⟨fun d hd => Or.inl (Bool.eq_false_iff.mpr hc), ih false⟩

/-- On a list whose whitespace consists of single isolated spaces, the
whitespace collapse changes nothing. -/
theorem collapseAux_id (l : List Char)
    (h1 : ∀ c ∈ l, isPySpace c = true → c = ' ')
    (h2 : List.Chain' noWW l) :
    subRunsAux isPySpace [' '] false l = l ∧
      ((∀ d, l.head? = some d → isPySpace d = false) →
        subRunsAux isPySpace [' '] true l = l) := by
  induction l with
  | nil => exact ⟨rfl, fun _ => rfl⟩
  | cons c cs ih =>
    have h1' : ∀ d ∈ cs, isPySpace d = true → d = ' ' :=
      fun d hd => h1 d (List.mem_cons_of_mem _ hd)
    rw [List.chain'_cons'] at h2
    obtain ⟨hrel, h2'⟩ := h2
    obtain ⟨ihf, iht⟩ := ih h1' h2'
    constructor
    · simp only [subRunsAux]
      by_cases hc : isPySpace c = true
      · rw [if_pos hc, if_neg (by simp), List.singleton_append]
        have hcs : c = ' ' := h1 c (List.mem_cons_self _ _) hc
        subst hcs
        congr 1
        apply iht
        intro d hd
        rcases hrel d (by rw [hd]; rfl) with h | h
        · exact absurd hc (by rw [h]; simp)
        · exact h
      · rw [if_neg hc]
        rw [ihf]
    · intro hh
      have hc : isPySpace c = false := hh c rfl
      simp only [subRunsAux]
      rw [if_neg (by rw [hc]; exact Bool.false_ne_true)]
      rw [ihf]

/-- The shared tail of both `normalize_header` pipelines — replace
non-alphabet runs by a space, collapse whitespace, strip — always produces a
canonical label. -/
theorem canon_tail (Y : List Char) :
    canonHeader (pyStrip (collapseWs (subRuns (fun c => !(isAz09Space c)) [' '] Y))) := by
  have hZaz : ∀ c ∈ subRuns (fun c => !(isAz09Space c)) [' '] Y, isAz09Space c = true := by
    intro c hc
    rcases subRunsAux_mem hc with h | ⟨h1, h2⟩
    · have : c = ' ' := by simpa using h
      subst this
      decide
    · simpa using h1
  have hWaz : ∀ c ∈ collapseWs (subRuns (fun c => !(isAz09Space c)) [' '] Y),
      isAz09Space c = true := by
    intro c hc
    rcases subRunsAux_mem hc with h | ⟨h1, h2⟩
    · have : c = ' ' := by simpa using h
      subst this
      decide
    · exact hZaz c h2
  refine ⟨?_, ?_, ?_, ?_⟩
  · intro c hc
    exact hWaz c (stripBoth_mem hc)
  · exact stripBoth_chain (fun a b hab => hab.symm)
      (collapseAux_chain (subRuns (fun c => !(isAz09Space c)) [' '] Y) false)
  · intro d hd
    exact stripBoth_head hd
  · intro d hd
    exact stripBoth_last hd

/-- `flatMap` of a pointwise-singleton function is the identity. -/
theorem flatMap_singleton_id {f : Char → List Char} {l : List Char}
    (h : ∀ c ∈ l, f c = [c]) : l.flatMap f = l := by
  induction l with
  | nil => rfl
  | cons c cs ih =>
    rw [List.flatMap_cons, h c (List.mem_cons_self _ _),
      ih (fun d hd => h d (List.mem_cons_of_mem _ hd)), List.singleton_append]

/-- The empty label is canonical. -/
theorem canonHeader_nil : canonHeader [] :=
  ⟨fun c hc => absurd hc (List.not_mem_nil c), List.chain'_nil,
   fun d hd => by simp at hd, fun d hd => by simp at hd⟩

/-- The accreditation `normalize_header` string pipeline is the identity on a
canonical label. -/
theorem nhA_canon_id (t : List Char) (h : canonHeader t) :
    Accred.normalizeHeaderChars t = t := by
  obtain ⟨haz, hch, hhd, hlt⟩ := h
  have hstrip : pyStrip t = t := stripBoth_id hhd hlt
  have hlower : t.map pyLower = t :=
    (List.map_congr_left (fun c hc => az_pyLower c (haz c hc))).trans (List.map_id t)
  have hflat : t.flatMap nfkdChar = t :=
    flatMap_singleton_id (fun c hc => az_nfkd c (haz c hc))
  have hfilter : t.filter (fun c => !(isCombining c)) = t :=
    List.filter_eq_self.mpr (fun c hc => by rw [az_isCombining c (haz c hc)]; rfl)
  have hnl : t.map (fun c => if c = '\n' then ' ' else c) = t :=
    (List.map_congr_left (fun c hc =>
      if_neg (az_ne c '\n' (haz c hc) (by decide)))).trans (List.map_id t)
  have hsub : subRuns (fun c => !(isAz09Space c)) [' '] t = t :=
    subRunsAux_id (fun c hc => by rw [haz c hc]; rfl) false
  have hcoll : collapseWs t = t :=
    (collapseAux_id t (fun c hc hw => az_space c (haz c hc) hw) hch).1
  show pyStrip (collapseWs (subRuns (fun c => !(isAz09Space c)) [' ']
    (((((pyStrip t).map pyLower).flatMap nfkdChar).filter (fun c => !(isCombining c))).map
      (fun c => if c = '\n' then ' ' else c)))) = t
  rw [hstrip, hlower, hflat, hfilter, hnl, hsub, hcoll, hstrip]

/-- The accreditation `normalize_header` always emits a canonical label. -/
theorem accred_nh_canon (v : RawCell) : canonHeader (Accred.normalize_header v) := by
  cases v with
  | none => exact canonHeader_nil
  | nan => exact canon_tail _
  | int n => exact canon_tail _
  | float d nz => exact canon_tail _
  | str s => exact canon_tail _
  | date d => exact canon_tail _

/-- The accreditation `normalize_header` is idempotent. -/
theorem accred_nh_idem (v : RawCell) :
    Accred.normalize_header (.str (Accred.normalize_header v)) = Accred.normalize_header v :=
  nhA_canon_id _ (accred_nh_canon v)

/-
Reduction, identity and `skelChar`-commutation lemmas for the
`clean_text` scanners of the permits pipeline.
-/

/-- `fixNewlines` on a lone carriage return (no following newline). -/
theorem fixNewlines_cr (rest : List Char) (h : ∀ r, rest = '\n' :: r → False) :
    fixNewlines ('\r' :: rest) = '\n' :: fixNewlines rest := by
  rw [fixNewlines.eq_def]
  split
  · rename_i r heq
    injection heq with h1 h2
    exact (h r h2).elim
  · rename_i r hne heq
    injection heq with h1 h2
    rw [h2]
  · rename_i c2 r2 hne1 hne2 heq
    injection heq with h1 h2
    exact ((hne2 h1.symm)).elim
  · rename_i heq
    exact (List.noConfusion heq)

/-- `fixNewlines` on a non-carriage-return head. -/
theorem fixNewlines_cons (c : Char) (rest : List Char)
    (h1 : ∀ r, c = '\r' → rest = '\n' :: r → False)
    (h2 : c = '\r' → False) :
    fixNewlines (c :: rest) = c :: fixNewlines rest := by
  rw [fixNewlines.eq_def]
  split
  · rename_i r heq
    injection heq with e1 e2
    exact (h1 r e1 e2).elim
  · rename_i r hne heq
    injection heq with e1 e2
    exact (h2 e1).elim
  · rename_i c2 r2 hne1 hne2 heq
    injection heq with e1 e2
    subst e1
    subst e2
    rfl
  · rename_i heq
    exact (List.noConfusion heq)

/-- `subCommaComma` on a head that starts none of its patterns. -/
theorem subCommaComma_cons (c : Char) (rest : List Char)
    (h1 : ∀ r, c = ',' → rest = ',' :: r → False)
    (h2 : ∀ r, c = ',' → rest = ' ' :: ',' :: r → False) :
    subCommaComma (c :: rest) = c :: subCommaComma rest := by
  rw [subCommaComma.eq_def]
  split
  · rename_i r heq
    injection heq with e1 e2
    exact (h1 r e1 e2).elim
  · rename_i r heq
    injection heq with e1 e2
    exact (h2 r e1 e2).elim
  · rename_i c2 r2 heq
    injection heq with e1 e2
    subst e1
    subst e2
    rfl
  · rename_i heq
    exact (List.noConfusion heq)

/-- `subSpaceComma` on a head that starts none of its patterns. -/
theorem subSpaceComma_cons (c : Char) (rest : List Char)
    (h1 : ∀ r, c = ' ' → rest = ' ' :: ',' :: r → False)
    (h2 : ∀ r, c = ' ' → rest = ',' :: r → False) :
    subSpaceComma (c :: rest) = c :: subSpaceComma rest := by
  rw [subSpaceComma.eq_def]
  split
  · rename_i r heq
    injection heq with e1 e2
    exact (h1 r e1 e2).elim
  · rename_i r heq
    injection heq with e1 e2
    exact (h2 r e1 e2).elim
  · rename_i c2 r2 hne1 hne2 heq
    injection heq with e1 e2
    subst e1
    subst e2
    rfl
  · rename_i heq
    exact (List.noConfusion heq)

/-- `subCommaSpace` on a comma followed by a single space. -/
theorem subCommaSpace_single (rest : List Char) (h : ∀ r, rest = ' ' :: r → False) :
    subCommaSpace (',' :: ' ' :: rest) = ',' :: ' ' :: subCommaSpace rest := by
  rw [subCommaSpace.eq_def]
  split
  · rename_i r heq
    injection heq with e1 e2
    injection e2 with e3 e4
    exact (h r e4).elim
  · rename_i r hne heq
    injection heq with e1 e2
    injection e2 with e3 e4
    rw [e4]
  · rename_i c2 r2 hne1 hne2 heq
    injection heq with e1 e2
    exact (hne2 rest e1.symm e2.symm).elim
  · rename_i heq
    exact (List.noConfusion heq)

/-- `subCommaSpace` on a head that starts none of its patterns. -/
theorem subCommaSpace_cons (c : Char) (rest : List Char)
    (h1 : ∀ r, c = ',' → rest = ' ' :: ' ' :: r → False)
    (h2 : ∀ r, c = ',' → rest = ' ' :: r → False) :
    subCommaSpace (c :: rest) = c :: subCommaSpace rest := by
  rw [subCommaSpace.eq_def]
  split
  · rename_i r heq
    injection heq with e1 e2
    exact (h1 r e1 e2).elim
  · rename_i r hne heq
    injection heq with e1 e2
    exact (h2 r e1 e2).elim
  · rename_i c2 r2 hne1 hne2 heq
    injection heq with e1 e2
    subst e1
    subst e2
    rfl
  · rename_i heq
    exact (List.noConfusion heq)

/-- `fixNewlines` is the identity on carriage-return-free text. -/
theorem fixNewlines_id (l : List Char) (h : '\r' ∉ l) : fixNewlines l = l := by
  induction l using fixNewlines.induct with
  | case1 rest ih => exact absurd (List.mem_cons_self _ _) h
  | case2 rest hne ih => exact absurd (List.mem_cons_self _ _) h
  | case3 c rest hne1 hne2 ih =>
    rw [fixNewlines_cons c rest hne1 hne2,
      ih (fun hm => h (List.mem_cons_of_mem _ hm))]
  | case4 => rfl

/-- `subCommaComma` is the identity on comma-free text. -/
theorem subCommaComma_id (l : List Char) (h : ',' ∉ l) : subCommaComma l = l := by
  induction l using subCommaComma.induct with
  | case1 rest ih => exact absurd (List.mem_cons_self _ _) h
  | case2 rest ih => exact absurd (List.mem_cons_self _ _) h
  | case3 c rest hne1 hne2 ih =>
    rw [subCommaComma_cons c rest hne1 hne2,
      ih (fun hm => h (List.mem_cons_of_mem _ hm))]
  | case4 => rfl

/-- `subSpaceComma` is the identity on comma-free text. -/
theorem subSpaceComma_id (l : List Char) (h : ',' ∉ l) : subSpaceComma l = l := by
  induction l using subSpaceComma.induct with
  | case1 rest ih =>
    exact absurd (List.mem_cons_of_mem _ (List.mem_cons_of_mem _ (List.mem_cons_self _ _))) h
  | case2 rest ih =>
    exact absurd (List.mem_cons_of_mem _ (List.mem_cons_self _ _)) h
  | case3 c rest hne1 hne2 ih =>
    rw [subSpaceComma_cons c rest hne1 hne2,
      ih (fun hm => h (List.mem_cons_of_mem _ hm))]
  | case4 => rfl

/-- `subCommaSpace` is the identity on comma-free text. -/
theorem subCommaSpace_id (l : List Char) (h : ',' ∉ l) : subCommaSpace l = l := by
  induction l using subCommaSpace.induct with
  | case1 rest ih => exact absurd (List.mem_cons_self _ _) h
  | case2 rest hne ih => exact absurd (List.mem_cons_self _ _) h
  | case3 c rest hne1 hne2 ih =>
    rw [subCommaSpace_cons c rest hne1 hne2,
      ih (fun hm => h (List.mem_cons_of_mem _ hm))]
  | case4 => rfl

/-- `dropQuoteBeforeWs` is the identity on quote-free text. -/
theorem dropQuote_id (q : Char) (l : List Char) (h : q ∉ l) :
    dropQuoteBeforeWs q l = l := by
  induction l with
  | nil => rfl
  | cons c cs ih =>
    cases cs with
    | nil => rfl
    | cons d ds =>
      have hc : ¬ c = q := fun he => h (by rw [he]; exact List.mem_cons_self _ _)
      rw [show dropQuoteBeforeWs q (c :: d :: ds) =
          if (c = q && isPySpace d) = true then dropQuoteBeforeWs q (d :: ds)
          else c :: dropQuoteBeforeWs q (d :: ds) from rfl]
      rw [if_neg (by simp [hc])]
      rw [ih (fun hm => h (List.mem_cons_of_mem _ hm))]

/-- A mapped list starting with a `skelChar`-rigid character comes from a
list starting with that same character. -/
theorem map_skel_eq_cons {l : List Char} {ch : Char} {r : List Char}
    (hch : ∀ c, skelChar c = ch ↔ c = ch)
    (h : l.map skelChar = ch :: r) : ∃ r2, l = ch :: r2 ∧ r2.map skelChar = r := by
  cases l with
  | nil => exact absurd h (by simp)
  | cons d ds =>
    rw [List.map_cons] at h
    injection h with h1 h2
    exact ⟨ds, by rw [(hch d).mp h1], h2⟩

/-- The head of a list, as a member. -/
theorem mem_of_head? {l : List Char} {d : Char} (h : l.head? = some d) : d ∈ l := by
  cases l with
  | nil => exact absurd h (by simp)
  | cons c cs =>
    injection h with h
    rw [h]
    exact List.mem_cons_self _ _

/-- A non-space character of the normalized alphabet is not in the final
strip set of `clean_text`. -/
theorem az_stripSet (d : Char) (h : isAz09Space d = true) (hw : isPySpace d = false) :
    ([' ', ',', quoteD, quoteS].contains d) = false := by
  have h1 : ¬ d = ' ' := fun he => by
    rw [he] at hw
    exact absurd hw (by decide)
  have h2 := az_ne d ',' h (by decide)
  have h3 := az_ne d quoteD h (by decide)
  have h4 := az_ne d quoteS h (by decide)
  simp [h1, h2, h3, h4]

/-- The permits `clean_text` string pipeline returns a canonical nonempty
label unchanged. -/
theorem cleanChars_canon (t : List Char) (h : canonHeader t) (hne : ¬ t = []) :
    cleanChars t = some t := by
  obtain ⟨haz, hch, hhd, hlt⟩ := h
  have hstrip : pyStrip t = t := stripBoth_id hhd hlt
  have hcr : '\r' ∉ t := fun hm => absurd (haz _ hm) (by decide)
  have hfix : fixNewlines t = t := fixNewlines_id t hcr
  have hnlc : newlinesToComma t = t :=
    subRunsAux_id (fun c hc => by
      have hx := az_ne c '\n' (haz c hc) (by decide)
      simp [hx]) false
  have hcoll : collapseWs t = t :=
    (collapseAux_id t (fun c hc hw => az_space c (haz c hc) hw) hch).1
  have hcomma : ',' ∉ t := fun hm => absurd (haz _ hm) (by decide)
  have hcc : subCommaComma t = t := subCommaComma_id t hcomma
  have hsc : subSpaceComma t = t := subSpaceComma_id t hcomma
  have hcs2 : subCommaSpace t = t := subCommaSpace_id t hcomma
  have hq1 : subRuns (fun c => c = quoteS) [quoteS] t = t :=
    subRunsAux_id (fun c hc => by
      have hx := az_ne c quoteS (haz c hc) (by decide)
      simp [hx]) false
  have hq2 : subRuns (fun c => c = quoteD) [quoteD] t = t :=
    subRunsAux_id (fun c hc => by
      have hx := az_ne c quoteD (haz c hc) (by decide)
      simp [hx]) false
  have hqm1 : quoteS ∉ t := fun hm => absurd (haz _ hm) (by decide)
  have hqm2 : quoteD ∉ t := fun hm => absurd (haz _ hm) (by decide)
  have hdq1 : dropQuoteBeforeWs quoteS t = t := dropQuote_id _ _ hqm1
  have hdq2 : dropQuoteBeforeWs quoteD t = t := dropQuote_id _ _ hqm2
  have hss : stripSet [' ', ',', quoteD, quoteS] t = t := by
    apply stripBoth_id
    · intro d hd
      exact az_stripSet d (haz d (mem_of_head? hd)) (hhd d hd)
    · intro d hd
      exact az_stripSet d (haz d (List.mem_reverse.mp (mem_of_head? hd))) (hlt d hd)
  simp only [cleanChars]
  rw [hstrip, hfix, hnlc, hcoll, hcc, hsc, hcs2, hq1, hq2, hdq1, hdq2, hss]
  rw [if_neg hne, if_neg hne]

/-- The permits `normalize_header` always emits a canonical label. -/
theorem permits_nh_canon (v : RawCell) : canonHeader (Permits.normalize_header v) := by
  unfold Permits.normalize_header
  rcases hc : Permits.clean_text v with _ | s
  · exact canonHeader_nil
  · exact canon_tail _

/-- The permits `normalize_header` on a canonical label string returns it
unchanged. -/
theorem nhP_canon_id (t : List Char) (h : canonHeader t) :
    Permits.normalize_header (.str t) = t := by
  by_cases hne : t = []
  · subst hne
    rfl
  · have hclean : Permits.clean_text (RawCell.str t) = some t := cleanChars_canon t h hne
    obtain ⟨haz, hch, hhd, hlt⟩ := h
    have hstrip : pyStrip t = t := stripBoth_id hhd hlt
    have hlower : t.map pyLower = t :=
      (List.map_congr_left (fun c hc => az_pyLower c (haz c hc))).trans (List.map_id t)
    have hflat : t.flatMap nfkdChar = t :=
      flatMap_singleton_id (fun c hc => az_nfkd c (haz c hc))
    have hfilter : t.filter (fun c => !(isCombining c)) = t :=
      List.filter_eq_self.mpr (fun c hc => by rw [az_isCombining c (haz c hc)]; rfl)
    have hfo : t.filter (fun c => !(c = 'º')) = t :=
      List.filter_eq_self.mpr (fun c hc => by
        have hx := az_ne c 'º' (haz c hc) (by decide)
        simp [hx])
    have hsub : subRuns (fun c => !(isAz09Space c)) [' '] t = t :=
      subRunsAux_id (fun c hc => by rw [haz c hc]; rfl) false
    have hcoll : collapseWs t = t :=
      (collapseAux_id t (fun c hc hw => az_space c (haz c hc) hw) hch).1
    unfold Permits.normalize_header
    rw [hclean]
    show pyStrip (collapseWs (subRuns (fun c => !(isAz09Space c)) [' ']
      ((((t.map pyLower).flatMap nfkdChar).filter (fun c => !(isCombining c))).filter
        (fun c => !(c = 'º'))))) = t
    rw [hlower, hflat, hfilter, hfo, hsub, hcoll, hstrip]

/-- The permits `normalize_header` is idempotent. -/
theorem permits_nh_idem (v : RawCell) :
    Permits.normalize_header (.str (Permits.normalize_header v)) = Permits.normalize_header v :=
  nhP_canon_id _ (permits_nh_canon v)

/-- `str.strip()` commutes with the skeleton map. -/
theorem pyStrip_skel (l : List Char) :
    pyStrip (l.map skelChar) = (pyStrip l).map skelChar :=
  stripBoth_map skel_isPySpace l

/-- The final strip set of `clean_text` does not distinguish a character from
its skeleton. -/
theorem stripSetPred_skel (c : Char) :
    ([' ', ',', quoteD, quoteS].contains (skelChar c)) =
      ([' ', ',', quoteD, quoteS].contains c) := by
  by_cases hc : c ∈ skelSupp
  · fin_cases hc <;> decide
  · rw [skelChar_eq_self c hc]

/-- `dropQuoteBeforeWs` commutes with the skeleton map for a quote character
the skeleton fixes. -/
theorem dropQuote_skel (q : Char) (hq : ∀ c, skelChar c = q ↔ c = q) (l : List Char) :
    dropQuoteBeforeWs q (l.map skelChar) = (dropQuoteBeforeWs q l).map skelChar := by
  induction l with
  | nil => rfl
  | cons c cs ih =>
    cases cs with
    | nil => rfl
    | cons d ds =>
      simp only [List.map_cons]
      rw [show dropQuoteBeforeWs q (skelChar c :: skelChar d :: ds.map skelChar) =
          if (skelChar c = q && isPySpace (skelChar d)) = true
          then dropQuoteBeforeWs q (skelChar d :: ds.map skelChar)
          else skelChar c :: dropQuoteBeforeWs q (skelChar d :: ds.map skelChar) from rfl]
      rw [show dropQuoteBeforeWs q (c :: d :: ds) =
          if (c = q && isPySpace d) = true then dropQuoteBeforeWs q (d :: ds)
          else c :: dropQuoteBeforeWs q (d :: ds) from rfl]
      rw [show ((skelChar c = q : Bool) && isPySpace (skelChar d)) =
          ((c = q : Bool) && isPySpace d) from by
        rw [decide_eq_decide.mpr (hq c), skel_isPySpace d]]
      by_cases hb : (c = q && isPySpace d) = true
      · rw [if_pos hb, if_pos hb]
        exact ih
      · rw [if_neg hb, if_neg hb, List.map_cons]
        exact congrArg (fun x => skelChar c :: x) ih

/-- `fixNewlines` commutes with the skeleton map. -/
theorem fixNewlines_skel (l : List Char) :
    fixNewlines (l.map skelChar) = (fixNewlines l).map skelChar := by
  have e1 : skelChar '\r' = '\r' := by decide
  have e2 : skelChar '\n' = '\n' := by decide
  induction l using fixNewlines.induct with
  | case1 rest ih =>
    simp only [List.map_cons, e1, e2]
    rw [show fixNewlines ('\r' :: '\n' :: rest.map skelChar) =
        '\n' :: fixNewlines (rest.map skelChar) from rfl]
    rw [show fixNewlines ('\r' :: '\n' :: rest) = '\n' :: fixNewlines rest from rfl]
    rw [List.map_cons, e2, ih]
  | case2 rest hne ih =>
    simp only [List.map_cons, e1]
    have hne2 : ∀ r, rest.map skelChar = '\n' :: r → False := by
      intro r hr
      obtain ⟨r2, hr2, _⟩ := map_skel_eq_cons (fun c => skel_eq_nl c) hr
      exact hne r2 hr2
    rw [fixNewlines_cr _ hne2, fixNewlines_cr _ hne, List.map_cons, e2, ih]
  | case3 c rest h1 h2 ih =>
    simp only [List.map_cons]
    have h1s : ∀ r, skelChar c = '\r' → rest.map skelChar = '\n' :: r → False :=
      fun r hsc _ => h2 ((skel_eq_cr c).mp hsc)
    have h2s : skelChar c = '\r' → False := fun hsc => h2 ((skel_eq_cr c).mp hsc)
    rw [fixNewlines_cons _ _ h1s h2s, fixNewlines_cons _ _ h1 h2, List.map_cons, ih]
  | case4 => rfl

/-- `subCommaComma` commutes with the skeleton map. -/
theorem subCommaComma_skel (l : List Char) :
    subCommaComma (l.map skelChar) = (subCommaComma l).map skelChar := by
  have ec : skelChar ',' = ',' := by decide
  have es : skelChar ' ' = ' ' := by decide
  induction l using subCommaComma.induct with
  | case1 rest ih =>
    simp only [List.map_cons, ec]
    rw [show subCommaComma (',' :: ',' :: rest.map skelChar) =
        ',' :: ' ' :: subCommaComma (rest.map skelChar) from rfl]
    rw [show subCommaComma (',' :: ',' :: rest) = ',' :: ' ' :: subCommaComma rest from rfl]
    rw [List.map_cons, List.map_cons, ec, es, ih]
  | case2 rest ih =>
    simp only [List.map_cons, ec, es]
    rw [show subCommaComma (',' :: ' ' :: ',' :: rest.map skelChar) =
        ',' :: ' ' :: subCommaComma (rest.map skelChar) from rfl]
    rw [show subCommaComma (',' :: ' ' :: ',' :: rest) =
        ',' :: ' ' :: subCommaComma rest from rfl]
    rw [List.map_cons, List.map_cons, ec, es, ih]
  | case3 c rest h1 h2 ih =>
    simp only [List.map_cons]
    have h1s : ∀ r, skelChar c = ',' → rest.map skelChar = ',' :: r → False := by
      intro r hsc hr
      obtain ⟨r2, hr2, _⟩ := map_skel_eq_cons (fun d => skel_eq_comma d) hr
      exact h1 r2 ((skel_eq_comma c).mp hsc) hr2
    have h2s : ∀ r, skelChar c = ',' → rest.map skelChar = ' ' :: ',' :: r → False := by
      intro r hsc hr
      obtain ⟨r2, hr2, hm2⟩ := map_skel_eq_cons (fun d => skel_eq_space d) hr
      obtain ⟨r3, hr3, _⟩ := map_skel_eq_cons (fun d => skel_eq_comma d) hm2
      exact h2 r3 ((skel_eq_comma c).mp hsc) (by rw [hr2, hr3])
    rw [subCommaComma_cons _ _ h1s h2s, subCommaComma_cons _ _ h1 h2, List.map_cons, ih]
  | case4 => rfl

/-- `subSpaceComma` commutes with the skeleton map. -/
theorem subSpaceComma_skel (l : List Char) :
    subSpaceComma (l.map skelChar) = (subSpaceComma l).map skelChar := by
  have ec : skelChar ',' = ',' := by decide
  have es : skelChar ' ' = ' ' := by decide
  induction l using subSpaceComma.induct with
  | case1 rest ih =>
    simp only [List.map_cons, ec, es]
    rw [show subSpaceComma (' ' :: ' ' :: ',' :: rest.map skelChar) =
        ',' :: subSpaceComma (rest.map skelChar) from rfl]
    rw [show subSpaceComma (' ' :: ' ' :: ',' :: rest) = ',' :: subSpaceComma rest from rfl]
    rw [List.map_cons, ec, ih]
  | case2 rest ih =>
    simp only [List.map_cons, ec, es]
    rw [show subSpaceComma (' ' :: ',' :: rest.map skelChar) =
        ',' :: subSpaceComma (rest.map skelChar) from rfl]
    rw [show subSpaceComma (' ' :: ',' :: rest) = ',' :: subSpaceComma rest from rfl]
    rw [List.map_cons, ec, ih]
  | case3 c rest h1 h2 ih =>
    simp only [List.map_cons]
    have h1s : ∀ r, skelChar c = ' ' → rest.map skelChar = ' ' :: ',' :: r → False := by
      intro r hsc hr
      obtain ⟨r2, hr2, hm2⟩ := map_skel_eq_cons (fun d => skel_eq_space d) hr
      obtain ⟨r3, hr3, _⟩ := map_skel_eq_cons (fun d => skel_eq_comma d) hm2
      exact h1 r3 ((skel_eq_space c).mp hsc) (by rw [hr2, hr3])
    have h2s : ∀ r, skelChar c = ' ' → rest.map skelChar = ',' :: r → False := by
      intro r hsc hr
      obtain ⟨r2, hr2, _⟩ := map_skel_eq_cons (fun d => skel_eq_comma d) hr
      exact h2 r2 ((skel_eq_space c).mp hsc) hr2
    rw [subSpaceComma_cons _ _ h1s h2s, subSpaceComma_cons _ _ h1 h2, List.map_cons, ih]
  | case4 => rfl

/-- `subCommaSpace` commutes with the skeleton map. -/
theorem subCommaSpace_skel (l : List Char) :
    subCommaSpace (l.map skelChar) = (subCommaSpace l).map skelChar := by
  have ec : skelChar ',' = ',' := by decide
  have es : skelChar ' ' = ' ' := by decide
  induction l using subCommaSpace.induct with
  | case1 rest ih =>
    simp only [List.map_cons, ec, es]
    rw [show subCommaSpace (',' :: ' ' :: ' ' :: rest.map skelChar) =
        ',' :: ' ' :: subCommaSpace (rest.map skelChar) from rfl]
    rw [show subCommaSpace (',' :: ' ' :: ' ' :: rest) =
        ',' :: ' ' :: subCommaSpace rest from rfl]
    rw [List.map_cons, List.map_cons, ec, es, ih]
  | case2 rest hne ih =>
    simp only [List.map_cons, ec, es]
    have hne2 : ∀ r, rest.map skelChar = ' ' :: r → False := by
      intro r hr
      obtain ⟨r2, hr2, _⟩ := map_skel_eq_cons (fun d => skel_eq_space d) hr
      exact hne r2 hr2
    rw [subCommaSpace_single _ hne2, subCommaSpace_single _ hne,
      List.map_cons, List.map_cons, ec, es, ih]
  | case3 c rest h1 h2 ih =>
    simp only [List.map_cons]
    have h1s : ∀ r, skelChar c = ',' → rest.map skelChar = ' ' :: ' ' :: r → False := by
      intro r hsc hr
      obtain ⟨r2, hr2, hm2⟩ := map_skel_eq_cons (fun d => skel_eq_space d) hr
      obtain ⟨r3, hr3, _⟩ := map_skel_eq_cons (fun d => skel_eq_space d) hm2
      exact h1 r3 ((skel_eq_comma c).mp hsc) (by rw [hr2, hr3])
    have h2s : ∀ r, skelChar c = ',' → rest.map skelChar = ' ' :: r → False := by
      intro r hsc hr
      obtain ⟨r2, hr2, _⟩ := map_skel_eq_cons (fun d => skel_eq_space d) hr
      exact h2 r2 ((skel_eq_comma c).mp hsc) hr2
    rw [subCommaSpace_cons _ _ h1s h2s, subCommaSpace_cons _ _ h1 h2, List.map_cons, ih]
  | case4 => rfl

/-- `re.sub(r"[\n]+", ", ")` commutes with the skeleton map. -/
theorem newlinesToComma_skel (l : List Char) :
    newlinesToComma (l.map skelChar) = (newlinesToComma l).map skelChar :=
  subRunsAux_map (fun c => decide_eq_decide.mpr (skel_eq_nl c)) (by decide) l false

/-- The whitespace collapse commutes with the skeleton map. -/
theorem collapseWs_skel (l : List Char) :
    collapseWs (l.map skelChar) = (collapseWs l).map skelChar :=
  subRunsAux_map skel_isPySpace (by decide) l false

/-- The apostrophe-run collapse commutes with the skeleton map. -/
theorem quoteSRun_skel (l : List Char) :
    subRuns (fun c => c = quoteS) [quoteS] (l.map skelChar) =
      (subRuns (fun c => c = quoteS) [quoteS] l).map skelChar :=
  subRunsAux_map (fun c => decide_eq_decide.mpr (skel_eq_quoteS c)) (by decide) l false

/-- The double-quote-run collapse commutes with the skeleton map. -/
theorem quoteDRun_skel (l : List Char) :
    subRuns (fun c => c = quoteD) [quoteD] (l.map skelChar) =
      (subRuns (fun c => c = quoteD) [quoteD] l).map skelChar :=
  subRunsAux_map (fun c => decide_eq_decide.mpr (skel_eq_quoteD c)) (by decide) l false

/-- The final strip of `clean_text` commutes with the skeleton map. -/
theorem stripSet_skel (l : List Char) :
    stripSet [' ', ',', quoteD, quoteS] (l.map skelChar) =
      (stripSet [' ', ',', quoteD, quoteS] l).map skelChar :=
  stripBoth_map stripSetPred_skel l

/-- The whole scanner chain of `clean_text` commutes with the skeleton map. -/
theorem cleanTail_skel (s : List Char) :
    cleanTail (s.map skelChar) = (cleanTail s).map skelChar := by
  simp only [cleanTail]
  rw [fixNewlines_skel, newlinesToComma_skel, collapseWs_skel, subCommaComma_skel,
    subSpaceComma_skel, subCommaSpace_skel, quoteSRun_skel, quoteDRun_skel,
    dropQuote_skel quoteS (fun c => skel_eq_quoteS c),
    dropQuote_skel quoteD (fun c => skel_eq_quoteD c), stripSet_skel]

/-- The permits `clean_text` string pipeline maps skeletons to skeletons. -/
theorem cleanChars_skel (x : List Char) :
    cleanChars (x.map skelChar) = Option.map (List.map skelChar) (cleanChars x) := by
  show (if pyStrip (x.map skelChar) = [] then Option.none
    else if cleanTail (pyStrip (x.map skelChar)) = [] then Option.none
    else some (cleanTail (pyStrip (x.map skelChar)))) =
    Option.map (List.map skelChar)
      (if pyStrip x = [] then Option.none
       else if cleanTail (pyStrip x) = [] then Option.none
       else some (cleanTail (pyStrip x)))
  rw [pyStrip_skel x, cleanTail_skel (pyStrip x)]
  by_cases h0 : pyStrip x = []
  · rw [h0]
    simp
  · rw [if_neg (by simp [h0]), if_neg h0]
    by_cases h1 : cleanTail (pyStrip x) = []
    · rw [h1]
      simp
    · rw [if_neg (by simp [h1]), if_neg h1]
      rfl

/-- The lower–NFKD–combining stage of both pipelines absorbs a prior
skeleton map. -/
theorem nfkdStage_skel (s : List Char) :
    (((s.map skelChar).map pyLower).flatMap nfkdChar).filter (fun c => !(isCombining c)) =
      ((s.map pyLower).flatMap nfkdChar).filter (fun c => !(isCombining c)) := by
  rw [List.map_map, List.flatMap_map, List.flatMap_map, List.filter_flatMap,
    List.filter_flatMap]
  exact congrArg (List.flatMap s) (funext skel_nfkd)

/-- The accreditation `normalize_header` string pipeline absorbs a prior
skeleton map. -/
theorem nhA_skel (x : List Char) :
    Accred.normalizeHeaderChars (x.map skelChar) = Accred.normalizeHeaderChars x := by
  show pyStrip (collapseWs (subRuns (fun c => !(isAz09Space c)) [' ']
    (((((pyStrip (x.map skelChar)).map pyLower).flatMap nfkdChar).filter
      (fun c => !(isCombining c))).map (fun c => if c = '\n' then ' ' else c)))) =
    pyStrip (collapseWs (subRuns (fun c => !(isAz09Space c)) [' ']
    (((((pyStrip x).map pyLower).flatMap nfkdChar).filter
      (fun c => !(isCombining c))).map (fun c => if c = '\n' then ' ' else c))))
  rw [pyStrip_skel x, nfkdStage_skel (pyStrip x)]

/-- Case/diacritic insensitivity of the accreditation `normalize_header`. -/
theorem accred_nh_skel_pair (x y : List Char) (h : x.map skelChar = y.map skelChar) :
    Accred.normalize_header (.str x) = Accred.normalize_header (.str y) := by
  show Accred.normalizeHeaderChars x = Accred.normalizeHeaderChars y
  rw [← nhA_skel x, h, nhA_skel y]

/-- The permits `normalize_header` absorbs a prior skeleton map. -/
theorem nhP_skel (x : List Char) :
    Permits.normalize_header (.str (x.map skelChar)) = Permits.normalize_header (.str x) := by
  have hL : Permits.clean_text (RawCell.str (x.map skelChar)) =
      Option.map (List.map skelChar) (cleanChars x) := cleanChars_skel x
  unfold Permits.normalize_header
  rcases hc : cleanChars x with _ | s
  · have hL2 : Permits.clean_text (RawCell.str (x.map skelChar)) = Option.none := by
      rw [hL, hc]
      rfl
    have hR : Permits.clean_text (RawCell.str x) = Option.none := hc
    rw [hL2, hR]
  · have hL2 : Permits.clean_text (RawCell.str (x.map skelChar)) =
        some (s.map skelChar) := by
      rw [hL, hc]
      rfl
    have hR : Permits.clean_text (RawCell.str x) = some s := hc
    rw [hL2, hR]
    show pyStrip (collapseWs (subRuns (fun c => !(isAz09Space c)) [' ']
      (((((s.map skelChar).map pyLower).flatMap nfkdChar).filter
        (fun c => !(isCombining c))).filter (fun c => !(c = 'º'))))) =
      pyStrip (collapseWs (subRuns (fun c => !(isAz09Space c)) [' ']
      ((((s.map pyLower).flatMap nfkdChar).filter
        (fun c => !(isCombining c))).filter (fun c => !(c = 'º')))))
    rw [nfkdStage_skel s]

/-- C8: header-label normalization is idempotent in both pipelines
(`normalize_header(normalize_header(x)) == normalize_header(x)` for every
cell), and case/diacritic-insensitive: two labels with equal character
skeletons (equal after lowercasing and removing diacritics position by
position) normalize to the same key; in particular
`normalize_header("Institucioni") == normalize_header("INSTITUCIONI")`
in both scripts, so label variants converge to one canonical field. -/
theorem C8_normalize_header_idem_insensitive :
    (∀ v : RawCell,
      Accred.normalize_header (.str (Accred.normalize_header v)) =
        Accred.normalize_header v) ∧
    (∀ v : RawCell,
      Permits.normalize_header (.str (Permits.normalize_header v)) =
        Permits.normalize_header v) ∧
    (∀ x y : List Char, x.map skelChar = y.map skelChar →
      Accred.normalize_header (.str x) = Accred.normalize_header (.str y) ∧
      Permits.normalize_header (.str x) = Permits.normalize_header (.str y)) ∧
    (Accred.normalize_header (.str "Institucioni".data) =
        Accred.normalize_header (.str "INSTITUCIONI".data) ∧
      Permits.normalize_header (.str "Institucioni".data) =
        Permits.normalize_header (.str "INSTITUCIONI".data)) := by
  refine ⟨accred_nh_idem, permits_nh_idem, ?_, ?_, ?_⟩
  · intro x y h
    refine ⟨accred_nh_skel_pair x y h, ?_⟩
    rw [← nhP_skel x, h, nhP_skel y]
  · decide
  · decide

/-- C8 witness: `"Institucioni"` and `"INSTITUCIONI"` have equal skeletons,
and the insensitivity part of the theorem applied to them gives equal
normalized keys in both pipelines. -/
theorem C8_witness :
    "Institucioni".data.map skelChar = "INSTITUCIONI".data.map skelChar ∧
    Accred.normalize_header (.str "Institucioni".data) =
      Accred.normalize_header (.str "INSTITUCIONI".data) ∧
    Permits.normalize_header (.str "Institucioni".data) =
      Permits.normalize_header (.str "INSTITUCIONI".data) := by
  have h := C8_normalize_header_idem_insensitive.2.2.1 "Institucioni".data
    "INSTITUCIONI".data (by decide)
  exact ⟨by decide, h.1, h.2⟩

end EnergyData
